import Mathlib

/-!
Verification of the ymusic_cli discovery / checkpoint / download / cache core.

The definitions below are a shallow embedding of the Python sources:
  * `src/ymusic_cli/services/discovery_service.py`
  * `src/ymusic_cli/services/progress_service.py`
  * `src/ymusic_cli/services/download_service.py`
  * `src/ymusic_cli/services/cache_service.py`
  * `src/ymusic_cli/core/models.py`, `core/exceptions.py`, `cli.py`

Python dicts are modelled as association lists with in-place update
(updating an existing key keeps its position, a new key is appended —
exactly Python's insertion-order semantics), Python sets as duplicate-free
lists, floats as rationals, and the external Yandex catalog client as an
oracle structure of total functions.
-/

namespace YMusic

/-! ### Association lists (Python `dict` with insertion order) -/

def lookupAssoc {α : Type} : List (String × α) → String → Option α
  | [], _ => none
  | (k', v) :: rest, k => if k' = k then some v else lookupAssoc rest k

def updateAssoc {α : Type} : List (String × α) → String → α → List (String × α)
  | [], k, v => [(k, v)]
  | (k', v') :: rest, k, v =>
      if k' = k then (k, v) :: rest else (k', v') :: updateAssoc rest k v

def eraseKey {α : Type} : List (String × α) → String → List (String × α)
  | [], _ => []
  | (k', v') :: rest, k => if k' = k then rest else (k', v') :: eraseKey rest k

/-! ### Core domain models (`core/models.py`) -/

/-- `Artist` dataclass. `similarity_score` (a Python float in the source) is
modelled as an optional rational. -/
structure Artist where
  id : String
  name : String
  country : Option String := none
  track_count : Nat := 0
  similarity_score : Option ℚ := none
  discovered_from : Option String := none
  depth : Nat := 0
deriving Repr, DecidableEq

/-- The fields of `DownloadOptions` used by discovery and checkpointing,
with the source's default values. -/
structure DownloadOptions where
  years : Option (Nat × Nat) := none
  similar_limit : Nat := 5
  similar_country_filter : Option String := none
  min_tracks_per_artist : Nat := 3
  max_depth : Nat := 2
  max_total_artists : Nat := 50
  songs_per_artist : Nat := 3
  priority_countries : List String := []
  exclude_artists : List String := []
  enable_year_filtering_for_discovery : Bool := false
  max_similar_artist_attempts : Nat := 20
deriving Repr, DecidableEq

/-- `DiscoveryResult` dataclass (statistics fields that only echo timing are
omitted; `countries_found`, a Python set, is a duplicate-free list). -/
structure DiscoveryResult where
  base_artist : Artist
  discovered_artists : List Artist
  discovery_tree : List (String × List String)
  total_discovered : Nat
  max_depth_reached : Nat
  countries_found : List String
deriving Repr, DecidableEq

/-- The two exception classes reachable from the discovery entry points
(`core/exceptions.py`): `NotFoundError` and `ServiceError`. -/
inductive DiscError where
  | notFoundError (msg : String)
  | serviceError (msg : String)
deriving Repr, DecidableEq

def DiscError.msg : DiscError → String
  | .notFoundError m => m
  | .serviceError m => m

/-- Is an `Except` result a raised `NotFoundError`? -/
def isNotFoundFailure {α : Type} : Except DiscError α → Bool
  | .error (.notFoundError _) => true
  | _ => false

/-- The external Yandex catalog client (`yandex_service.py`), modelled as an
oracle of total functions.  `get_similar_artists` takes the `limit` argument
the service methods pass. -/
structure MusicService where
  get_artist : String → Option Artist
  get_similar_artists : String → Nat → List Artist
  check_artist_has_content_in_years : String → Nat × Nat → Bool

/-- Well-formedness of the catalog client, from `yandex_service.py`:
`get_artist` builds an `Artist` whose `id` is the requested id and whose
`depth`/`discovered_from` keep their dataclass defaults (`0`/`None`), and a
similarity listing never repeats an artist id. -/
def MusicService.WF (svc : MusicService) : Prop :=
  (∀ id a, svc.get_artist id = some a →
      a.id = id ∧ a.depth = 0 ∧ a.discovered_from = none) ∧
  (∀ id limit, ((svc.get_similar_artists id limit).map Artist.id).Nodup)

/-! ### Discovery service helpers (`discovery_service.py`) -/

/-- Python `str.upper()` (character-wise; the ASCII range suffices for the
two-letter country codes this option carries). -/
def pyUpper (s : String) : String := ⟨s.data.map Char.toUpper⟩

/-- `_apply_country_filter`. -/
def applyCountryFilter (artists : List Artist) (base : Artist) (countryFilter : String) :
    List Artist :=
  if countryFilter.toLower = "same" then
    match base.country with
    | none => artists
    | some tc => artists.filter (fun a => a.country = some tc)
  else
    let targets := (countryFilter.splitOn ",").map (fun c => pyUpper c.trim)
    artists.filter (fun a =>
      match a.country with
      | some c => c ∈ targets
      | none => false)

/-- `_apply_priority_countries`: stable partition with priority-region
artists first. -/
def applyPriorityCountries (artists : List Artist) (priorityCountries : List String) :
    List Artist :=
  if priorityCountries = [] then artists
  else
    let prioritySet := priorityCountries.map pyUpper
    let inPriority : Artist → Bool := fun a =>
      match a.country with
      | some c => c ∈ prioritySet
      | none => false
    artists.filter inPriority ++ artists.filter (fun a => !inPriority a)

/-- The sort key `(a.similarity_score or 0, a.track_count)`. -/
def sortKey (a : Artist) : ℚ × Nat := (a.similarity_score.getD 0, a.track_count)

/-- Lexicographic order on sort keys (Python tuple comparison). -/
def lexLe (p q : ℚ × Nat) : Prop := p.1 < q.1 ∨ (p.1 = q.1 ∧ p.2 ≤ q.2)

instance (p q : ℚ × Nat) : Decidable (lexLe p q) :=
  inferInstanceAs (Decidable (p.1 < q.1 ∨ (p.1 = q.1 ∧ p.2 ≤ q.2)))

/-- `a` may be placed before `b` by
`sort(key=(score, track_count), reverse=True)`. -/
def rankRel (a b : Artist) : Prop := lexLe (sortKey b) (sortKey a)

instance : DecidableRel rankRel := fun a b =>
  inferInstanceAs (Decidable (lexLe (sortKey b) (sortKey a)))

instance : IsTrans Artist rankRel :=
  ⟨by
    intro a b c h₁ h₂
    rcases h₂ with h₂ | ⟨h₂, h₂'⟩ <;> rcases h₁ with h₁ | ⟨h₁, h₁'⟩
    · exact Or.inl (h₂.trans h₁)
    · exact Or.inl (h₁ ▸ h₂)
    · exact Or.inl (h₂ ▸ h₁)
    · exact Or.inr ⟨h₂.trans h₁, h₂'.trans h₁'⟩⟩

instance : IsTotal Artist rankRel :=
  ⟨by
    intro a b
    rcases lt_trichotomy (sortKey b).1 (sortKey a).1 with h | h | h
    · exact Or.inl (Or.inl h)
    · rcases Nat.le_total (sortKey b).2 (sortKey a).2 with h' | h'
      · exact Or.inl (Or.inr ⟨h, h'⟩)
      · exact Or.inr (Or.inr ⟨h.symm, h'⟩)
    · exact Or.inr (Or.inl h)⟩

/-- The filtering pass of `_select_discovery_candidates`: drop visited,
excluded and below-minimum-track-count candidates. -/
def discoveryFilter (similar : List Artist) (visited : List String)
    (opts : DownloadOptions) : List Artist :=
  similar.filter (fun a =>
    !(visited.contains a.id || opts.exclude_artists.contains a.id) &&
      opts.min_tracks_per_artist ≤ a.track_count)

/-- `_select_discovery_candidates`: filter, apply priority countries, then
`candidates.sort(key=..., reverse=True)`.  Python's sort is stable, and a
stable sort is determined extensionally by its comparison, so the stable
`List.insertionSort` computes the same list. -/
def selectDiscoveryCandidates (similar : List Artist) (visited : List String)
    (opts : DownloadOptions) : List Artist :=
  let candidates := discoveryFilter similar visited opts
  let candidates :=
    if opts.priority_countries ≠ [] then
      applyPriorityCountries candidates opts.priority_countries
    else candidates
  List.insertionSort rankRel candidates

/-! ### Recursive discovery (`discover_recursive`) -/

/-- The mutable state of a `discover_recursive` run. -/
structure DiscState where
  discovered : List (String × Artist)
  visited : List String
  tree : List (String × List String)
  countries : List String
deriving Repr, DecidableEq

/-- `countries_found.add(c)` (Python set add). -/
def addCountry (countries : List String) (c : String) : List String :=
  if c ∈ countries then countries else countries ++ [c]

/-- Admission of one candidate (`discover_recursive` lines 237-247):
set `depth` and `discovered_from`, store the artist, mark it visited, and
record its country. -/
def admitState (st : DiscState) (c : Artist) (parentId : String) (d : Nat) : DiscState :=
  { st with
    discovered := updateAssoc st.discovered c.id
      { c with depth := d, discovered_from := some parentId },
    visited := st.visited ++ [c.id],
    countries :=
      match c.country with
      | some co => addCountry st.countries co
      | none => st.countries }

/-- The inner candidate-admission loop of `discover_recursive`
(lines 209-247): walk ranked candidates, enforcing the total-artist cap, the
per-parent `similar_limit`, and — when year filtering is active — the
`max_attempts` probe budget and the content-in-range predicate.
Arguments: remaining candidates, state, the level's `next_level` list so
far, this parent's `selected_candidates` ids so far, `candidates_checked`.
Returns the state, the grown `next_level` and this parent's selected ids. -/
def admitLoop (svc : MusicService) (opts : DownloadOptions) (parentId : String)
    (d : Nat) (maxAttempts : Nat) :
    List Artist → DiscState → List String → List String → Nat →
    DiscState × List String × List String
  | [], st, nextLevel, selected, _ => (st, nextLevel, selected)
  | c :: rest, st, nextLevel, selected, checked =>
    if opts.max_total_artists ≤ st.discovered.length then (st, nextLevel, selected)
    else if opts.similar_limit ≤ selected.length then (st, nextLevel, selected)
    else
      match opts.years with
      | some years =>
        if opts.enable_year_filtering_for_discovery then
          -- year-filtering branch: candidates_checked += 1, budget check, probe
          if maxAttempts < checked + 1 then (st, nextLevel, selected)
          else if !svc.check_artist_has_content_in_years c.id years then
            admitLoop svc opts parentId d maxAttempts rest st nextLevel selected (checked + 1)
          else
            admitLoop svc opts parentId d maxAttempts rest (admitState st c parentId d)
              (nextLevel ++ [c.id]) (selected ++ [c.id]) (checked + 1)
        else
          admitLoop svc opts parentId d maxAttempts rest (admitState st c parentId d)
            (nextLevel ++ [c.id]) (selected ++ [c.id]) checked
      | none =>
        admitLoop svc opts parentId d maxAttempts rest (admitState st c parentId d)
          (nextLevel ++ [c.id]) (selected ++ [c.id]) checked

/-- Processing of one frontier entity (`discover_recursive` lines 166-260):
fetch up to 50 similarity candidates, select, admit, then record this
parent's children in the discovery tree.  The `discovered_artists[...]`
lookup of line 170 cannot fail (every frontier id is a key — proved below),
so the unreachable `none` branch leaves the state unchanged. -/
def processParent (svc : MusicService) (opts : DownloadOptions) (d : Nat)
    (st : DiscState) (nextLevel : List String) (parentId : String) :
    DiscState × List String :=
  match lookupAssoc st.discovered parentId with
  | none => (st, nextLevel)
  | some _ =>
    let similar := svc.get_similar_artists parentId 50
    let candidates := selectDiscoveryCandidates similar st.visited opts
    let maxAttempts :=
      if opts.enable_year_filtering_for_discovery then opts.max_similar_artist_attempts
      else opts.similar_limit
    let res := admitLoop svc opts parentId d maxAttempts candidates st nextLevel [] 0
    ({ res.1 with tree := updateAssoc res.1.tree parentId res.2.2 }, res.2.1)

/-- One traversal level (the `for i, current_artist_id in enumerate(...)`
loop), with the early break once `max_total_artists` is reached. -/
def processLevel (svc : MusicService) (opts : DownloadOptions) (d : Nat) :
    List String → DiscState → List String → DiscState × List String
  | [], st, nextLevel => (st, nextLevel)
  | p :: ps, st, nextLevel =>
    if opts.max_total_artists ≤ st.discovered.length then (st, nextLevel)
    else
      let res := processParent svc opts d st nextLevel p
      processLevel svc opts d ps res.1 res.2

/-- The `for depth in range(1, max_depth + 1)` loop: `fuel` counts the
remaining levels, `d` is the current depth. -/
def runLevels (svc : MusicService) (opts : DownloadOptions) :
    Nat → Nat → List String → DiscState → DiscState
  | 0, _, _, st => st
  | fuel + 1, d, cur, st =>
    if opts.max_total_artists ≤ st.discovered.length then st
    else if cur = [] then st
    else
      let res := processLevel svc opts d cur st []
      runLevels svc opts fuel (d + 1) res.2 res.1

/-- Initial discovery state for a seed (lines 137-147). -/
def initState (seedId : String) (base : Artist) : DiscState :=
  { discovered := [(seedId, base)],
    visited := [seedId],
    tree := [(seedId, [])],
    countries :=
      match base.country with
      | some co => [co]
      | none => [] }

/-- `max(a.depth for a in discovered_artists.values())`. -/
def maxDepthOf (discovered : List (String × Artist)) : Nat :=
  (discovered.map (fun p => p.2.depth)).foldl max 0

/-- The body of `discover_recursive` inside its `try`: raises
`NotFoundError` if the seed does not resolve, otherwise runs the traversal
and builds the `DiscoveryResult`. -/
def discoverRecursiveBody (svc : MusicService) (opts : DownloadOptions)
    (seedId : String) : Except DiscError DiscoveryResult :=
  match svc.get_artist seedId with
  | none => .error (.notFoundError ("Artist " ++ seedId ++ " not found"))
  | some base =>
    let stF := runLevels svc opts opts.max_depth 1 [seedId] (initState seedId base)
    .ok
      { base_artist := base,
        discovered_artists := stF.discovered.map Prod.snd,
        discovery_tree := stF.tree,
        total_discovered := stF.discovered.length,
        max_depth_reached := maxDepthOf stF.discovered,
        countries_found := stF.countries }

/-- `discover_recursive`: the surrounding `except Exception` clause catches
every error raised in the body — including the seed `NotFoundError` — and
raises `ServiceError(f"Recursive discovery failed: {e}", "discovery")`. -/
def discoverRecursive (svc : MusicService) (opts : DownloadOptions)
    (seedId : String) : Except DiscError DiscoveryResult :=
  match discoverRecursiveBody svc opts seedId with
  | .ok r => .ok r
  | .error e => .error (.serviceError ("Recursive discovery failed: " ++ e.msg))

/-! ### Flat discovery (`discover_similar_artists`) -/

/-- Duplicate-free collection of the countries of a list of artists
(`set(a.country for a in filtered_artists if a.country)`). -/
def countriesOf (artists : List Artist) : List String :=
  (artists.filterMap Artist.country).foldl addCountry []

/-- The body of `discover_similar_artists` inside its `try`. -/
def discoverSimilarArtistsBody (svc : MusicService) (opts : DownloadOptions)
    (artistId : String) : Except DiscError DiscoveryResult :=
  match svc.get_artist artistId with
  | none => .error (.notFoundError ("Artist " ++ artistId ++ " not found"))
  | some base =>
    let similar := svc.get_similar_artists artistId opts.similar_limit
    let similar :=
      match opts.similar_country_filter with
      | some f => applyCountryFilter similar base f
      | none => similar
    let similar :=
      if opts.priority_countries ≠ [] then
        applyPriorityCountries similar opts.priority_countries
      else similar
    let filtered := similar.filter (fun a => opts.min_tracks_per_artist ≤ a.track_count)
    .ok
      { base_artist := base,
        discovered_artists := filtered,
        discovery_tree := [(artistId, filtered.map Artist.id)],
        total_discovered := filtered.length + 1,
        max_depth_reached := 1,
        countries_found := countriesOf filtered }

/-- `discover_similar_artists`: the `except Exception` clause rewraps every
raised error — including the seed `NotFoundError` — as
`ServiceError(f"Discovery failed: {e}", "discovery")`. -/
def discoverSimilarArtists (svc : MusicService) (opts : DownloadOptions)
    (artistId : String) : Except DiscError DiscoveryResult :=
  match discoverSimilarArtistsBody svc opts artistId with
  | .ok r => .ok r
  | .error e => .error (.serviceError ("Discovery failed: " ++ e.msg))

/-! ### The CLI driver's discovery step (`cli.py`, `discover_artists`) -/

/-- `MusicDiscoveryCLI.discover_artists` (cli.py lines 275-349).  The CLI
sets `options.max_depth = args.depth`, so the `args.depth == 0` test is the
`opts.max_depth = 0` test here.  Note the recursive branch rebinds
`discovered_artists` to `result.discovered_artists`, discarding the
seed-exclusion decision taken in the year-filter check above it. -/
def cliDiscoverArtists (svc : MusicService) (opts : DownloadOptions)
    (baseArtistId : String) : Except DiscError (List Artist) :=
  match svc.get_artist baseArtistId with
  | none => .error (.notFoundError ("Artist " ++ baseArtistId ++ " not found"))
  | some base =>
    let discovered : List Artist :=
      match opts.years with
      | some years =>
        if opts.enable_year_filtering_for_discovery then
          if !svc.check_artist_has_content_in_years baseArtistId years then []
          else [base]
        else [base]
      | none => [base]
    if opts.similar_limit = 0 then .ok discovered
    else if opts.max_depth = 0 then
      let similar := svc.get_similar_artists baseArtistId opts.similar_limit
      let filteredSimilar := similar.filter (fun a => !opts.exclude_artists.contains a.id)
      .ok (discovered ++ filteredSimilar)
    else
      match discoverRecursive svc opts baseArtistId with
      | .error e => .error e
      | .ok result => .ok result.discovered_artists

/-! ### Progress checkpoints (`progress_service.py`, `core/models.py`) -/

/-- `ProgressCheckpoint` dataclass.  `processed_artist_ids` (a Python set)
is a duplicate-free list; timestamps are omitted. -/
structure ProgressCheckpoint where
  session_name : String
  total_artists : Nat := 0
  processed_artist_ids : List String := []
  last_artist_index : Nat := 0
  last_artist_id : String := ""
  command_hash : String := ""
  is_complete : Bool := false
deriving Repr, DecidableEq

/-- Python `set.add`. -/
def insertId (ids : List String) (id : String) : List String :=
  if id ∈ ids then ids else ids ++ [id]

/-- `ProgressService.save_checkpoint`: update the current in-memory
checkpoint if it is for this session, otherwise create a fresh one (the
durable writes to Redis/file mirror this in-memory state and are not
modelled).  `total_artists or 0` / `command_hash or ""` are `getD`s since
the Python falsy defaults coincide with the absent values. -/
def saveCheckpoint (cur : Option ProgressCheckpoint) (sessionName artistId : String)
    (artistIndex : Nat) (totalArtists : Option Nat) (commandHash : Option String) :
    ProgressCheckpoint :=
  match cur with
  | some cp =>
    if cp.session_name = sessionName then
      { cp with
        last_artist_id := artistId,
        last_artist_index := artistIndex,
        processed_artist_ids := insertId cp.processed_artist_ids artistId }
    else
      { session_name := sessionName,
        total_artists := totalArtists.getD 0,
        processed_artist_ids := [artistId],
        last_artist_index := artistIndex,
        last_artist_id := artistId,
        command_hash := commandHash.getD "" }
  | none =>
    { session_name := sessionName,
      total_artists := totalArtists.getD 0,
      processed_artist_ids := [artistId],
      last_artist_index := artistIndex,
      last_artist_id := artistId,
      command_hash := commandHash.getD "" }

/-- A sequence of `save_checkpoint` calls for one session, threading the
service's `_current_checkpoint`. -/
def runSaves (sessionName : String) (cur : Option ProgressCheckpoint)
    (saves : List (String × Nat)) : Option ProgressCheckpoint :=
  saves.foldl (fun st p => some (saveCheckpoint st sessionName p.1 p.2 none none)) cur

/-- The processed-id set of the current checkpoint (empty if none). -/
def processedOf : Option ProgressCheckpoint → List String
  | none => []
  | some cp => cp.processed_artist_ids

/-- `ProgressService.get_remaining_artists`: a set difference over
`processed_artist_ids`, preserving the input order. -/
def getRemainingArtists (cur : Option ProgressCheckpoint) (allArtists : List Artist) :
    List Artist :=
  match cur with
  | none => allArtists
  | some cp => allArtists.filter (fun a => !cp.processed_artist_ids.contains a.id)

/-! ### Command-signature hash (`generate_command_hash`, `validate_compatibility`)

The source hashes
`f"{','.join(sorted(artist_ids))}_{similar_limit}_{max_depth}_{songs_per_artist}"`
with `hashlib.md5(...)[:12]`.  The md5 truncation is modelled as the
identity on the content string (an injective idealisation of the digest);
everything below is about the content string itself. -/

/-- The character of a decimal digit (`'0'` + d). -/
def digitCh (d : Nat) : Char := Char.ofNat (48 + d)

/-- Decimal digit characters of a natural number (Python `str(int)` /
f-string formatting of a non-negative int). -/
def decDigits (n : Nat) : List Char :=
  if _h : n < 10 then [digitCh n]
  else decDigits (n / 10) ++ [digitCh (n % 10)]
decreasing_by
  exact Nat.div_lt_self (by omega) (by omega)

/-- Fuel-based accumulator version of `decDigits` (structurally recursive,
so it evaluates in the kernel); proved equal to `decDigits` below. -/
def decDigitsCore : Nat → Nat → List Char → List Char
  | 0, _, ds => ds
  | fuel + 1, n, ds =>
    let d := digitCh (n % 10)
    if n / 10 = 0 then d :: ds else decDigitsCore fuel (n / 10) (d :: ds)

/-- Decimal rendering of a natural number. -/
def decStr (n : Nat) : String := ⟨decDigitsCore (n + 1) n []⟩

/-- Python `','.join(strings)`. -/
def joinComma : List String → String
  | [] => ""
  | [s] => s
  | s :: rest => s ++ "," ++ joinComma rest

/-- Lexicographic comparison of character lists (Python string `<=` by
code point). -/
def charsLe : List Char → List Char → Bool
  | [], _ => true
  | _ :: _, [] => false
  | c :: cs, d :: ds => if c < d then true else if d < c then false else charsLe cs ds

/-- Python `sorted(strings)` (lexicographic by code point, stable). -/
def sortStrings (l : List String) : List String :=
  List.insertionSort (fun a b => charsLe a.data b.data = true) l

/-- The content string of `generate_command_hash`; the md5 truncation is
modelled as the identity on it. -/
def generateCommandHash (artistIds : List String) (similarLimit maxDepth songsPerArtist : Nat) :
    String :=
  joinComma (sortStrings artistIds) ++ "_" ++ decStr similarLimit ++ "_" ++
    decStr maxDepth ++ "_" ++ decStr songsPerArtist

/-- `ProgressService.validate_compatibility`. -/
def validateCompatibility (checkpoint : ProgressCheckpoint) (commandHash : String) : Bool :=
  if checkpoint.command_hash ≠ commandHash then false else true

/-! ### In-memory cache (`cache_service.py`, `core/models.py`) -/

/-- A stored `CacheEntry` (the redundant `key` field is the map key). -/
structure MCEntry where
  value : String
  created_at : Nat
  ttl_seconds : Nat
deriving Repr, DecidableEq

/-- The `InMemoryCacheService.cache` dict. -/
abbrev MemCache := List (String × MCEntry)

/-- `CacheEntry.is_expired`: `(now - created_at).total_seconds() > ttl`. -/
def entryExpired (now : Nat) (e : MCEntry) : Bool :=
  decide (e.ttl_seconds < now - e.created_at)

/-- `InMemoryCacheService.get`: lazily evicts an expired entry. -/
def cacheGet (now : Nat) (c : MemCache) (key : String) : Option String × MemCache :=
  match lookupAssoc c key with
  | none => (none, c)
  | some e =>
    if entryExpired now e then (none, eraseKey c key)
    else (some e.value, c)

/-- `InMemoryCacheService.set`. -/
def cacheSet (now : Nat) (c : MemCache) (key value : String) (ttlSeconds : Nat) : MemCache :=
  updateAssoc c key { value := value, created_at := now, ttl_seconds := ttlSeconds }

/-- `InMemoryCacheService.delete`: `self.cache.pop(key, None) is not None`
— reports whether a stored entry (live or expired) was present. -/
def cacheDelete (c : MemCache) (key : String) : Bool × MemCache :=
  ((lookupAssoc c key).isSome, eraseKey c key)

/-- `InMemoryCacheService.exists`: like `get`, lazily evicting an expired
entry and reporting liveness only. -/
def cacheExists (now : Nat) (c : MemCache) (key : String) : Bool × MemCache :=
  match lookupAssoc c key with
  | none => (false, c)
  | some e =>
    if entryExpired now e then (false, eraseKey c key)
    else (true, c)

/-! ### Download orchestration (`download_service.py`, `download_track`) -/

/-- Outcome of the single HTTP fetch of a download attempt. -/
inductive NetOutcome where
  | ok (contentLength : Nat)
  | badStatus (code : Nat)
  | clientError (msg : String)
  | osError (msg : String)
deriving Repr, DecidableEq

/-- The environment of one `download_track` call: the catalog's URL
resolution, the network outcome, the filesystem, and the settings-derived
canonical cache path / limits. -/
structure DlEnv where
  urlFor : Option String
  net : NetOutcome
  fileExists : String → Bool
  cachePath : String
  maxFileSizeBytes : Nat
  songsCacheTtl : Nat

/-- The download exceptions of `core/exceptions.py` reachable from
`download_track`. -/
inductive DlError where
  | downloadError (msg : String)
  | networkError (msg : String)
  | fileSystemError (msg : String)
deriving Repr, DecidableEq

/-- Result of a `download_track` call: the returned bool or raised error,
the cache state afterwards, and how many network operations were performed
(URL resolutions via the catalog service, HTTP download requests). -/
structure DlResult where
  result : Except DlError Bool
  cache : MemCache
  urlCalls : Nat
  httpCalls : Nat
deriving Repr

/-- `track_{id}` positive-cache key. -/
def trackKey (trackId : String) : String := "track_" ++ trackId

/-- `failed_track_{id}` negative-cache key. -/
def failedKey (trackId : String) : String := "failed_track_" ++ trackId

/-- The network phase of `download_track` (after both cache consultations
missed): resolve the URL, perform the HTTP request, stream to the cache
path and hard-link to the output (file operations are summarised by the
`osError` outcome).  Errors follow the source's `except` clauses: client
errors and generic failures record a 5-minute negative-cache entry; OS
errors are never cached. -/
def downloadFresh (env : DlEnv) (now : Nat) (trackId : String) (c : MemCache) : DlResult :=
  match env.urlFor with
  | none =>
    -- `DownloadError` raised, caught by `except Exception`: negative cache + rewrap
    { result := .error (.downloadError ("Download failed: No download URL for track " ++ trackId)),
      cache := cacheSet now c (failedKey trackId) ("No download URL for track " ++ trackId) 300,
      urlCalls := 1, httpCalls := 0 }
  | some _url =>
    match env.net with
    | .clientError m =>
      { result := .error (.networkError ("Network error: " ++ m)),
        cache := cacheSet now c (failedKey trackId) m 300,
        urlCalls := 1, httpCalls := 1 }
    | .osError m =>
      { result := .error (.fileSystemError ("File system error: " ++ m)),
        cache := c, urlCalls := 1, httpCalls := 1 }
    | .badStatus code =>
      { result := .error (.downloadError ("Download failed: HTTP " ++ decStr code ++
          " when downloading track " ++ trackId)),
        cache := cacheSet now c (failedKey trackId)
          ("HTTP " ++ decStr code ++ " when downloading track " ++ trackId) 300,
        urlCalls := 1, httpCalls := 1 }
    | .ok contentLength =>
      if env.maxFileSizeBytes < contentLength then
        { result := .error (.downloadError "Download failed: File too large"),
          cache := cacheSet now c (failedKey trackId) "File too large" 300,
          urlCalls := 1, httpCalls := 1 }
      else
        let ttl := if env.songsCacheTtl = 0 then 10 * 365 * 24 * 3600 else env.songsCacheTtl
        { result := .ok true,
          cache := cacheSet now c (trackKey trackId) env.cachePath ttl,
          urlCalls := 1, httpCalls := 1 }

/-- `DownloadOrchestrator.download_track`: negative cache first, then the
positive cache (with stale-path eviction), then the network phase. -/
def downloadTrack (env : DlEnv) (now : Nat) (trackId : String) (c : MemCache) : DlResult :=
  let negRes := cacheGet now c (failedKey trackId)
  if (negRes.1).isSome then
    { result := .ok false, cache := negRes.2, urlCalls := 0, httpCalls := 0 }
  else
    let posRes := cacheGet now negRes.2 (trackKey trackId)
    match posRes.1 with
    | some path =>
      if env.fileExists path then
        { result := .ok true, cache := posRes.2, urlCalls := 0, httpCalls := 0 }
      else
        downloadFresh env now trackId (cacheDelete posRes.2 (trackKey trackId)).2
    | none => downloadFresh env now trackId posRes.2

/-- The negative-cache entry recorded for a track: present, created at `t`,
with the 5-minute TTL. -/
def negEntryAt (c : MemCache) (trackId : String) (t : Nat) : Prop :=
  match lookupAssoc c (failedKey trackId) with
  | some e => e.created_at = t ∧ e.ttl_seconds = 300
  | none => False

/-- The raised error of a discovery call, if any. -/
def discFailure {α : Type} : Except DiscError α → Option DiscError
  | .error e => some e
  | .ok _ => none

/-- The artist list of a successful CLI discovery, `[]` on failure. -/
def okList : Except DiscError (List Artist) → List Artist
  | .ok l => l
  | .error _ => []

/-! ### Concrete instances used by counterexamples and witnesses -/

/-- A catalog on which no artist resolves. -/
def svcAbsent : MusicService :=
  { get_artist := fun _ => none,
    get_similar_artists := fun _ _ => [],
    check_artist_has_content_in_years := fun _ _ => true }

/-- A catalog with seed `S` (no content in 2020-2024) and one similar
artist `C` (content in 2020-2024). -/
def svcSeedNoYear : MusicService :=
  { get_artist := fun id =>
      if id = "S" then some { id := "S", name := "Seed" }
      else if id = "C" then some { id := "C", name := "Cand", track_count := 10 }
      else none,
    get_similar_artists := fun id _ =>
      if id = "S" then
        [{ id := "C", name := "Cand", track_count := 10, similarity_score := some (mkRat 1 2) }]
      else [],
    check_artist_has_content_in_years := fun id _ => id ≠ "S" }

/-- Options of a year-filtered recursive run (`--years 2020-2024 -s 2 -d 1`;
the CLI always sets `max_total_artists = 999`). -/
def optsSeedNoYear : DownloadOptions :=
  { similar_limit := 2, max_depth := 1, max_total_artists := 999,
    years := some (2020, 2024), enable_year_filtering_for_discovery := true }

/-- A non-priority-region candidate with the higher similarity score. -/
def candHighScore : Artist :=
  { id := "A", name := "A", country := some "US", track_count := 10,
    similarity_score := some (mkRat 9 10) }

/-- A priority-region candidate with the lower similarity score. -/
def candPriority : Artist :=
  { id := "B", name := "B", country := some "UZ", track_count := 10,
    similarity_score := some (mkRat 1 2) }

/-- Options with a priority region configured. -/
def optsPriority : DownloadOptions := { priority_countries := ["UZ"] }

/-- A small deterministic catalog for the bound/invariant witnesses:
seed `1` with similar artists `2` and `3`, artist `2` similar to `3`
and `4`. -/
def svcSmall : MusicService :=
  { get_artist := fun id =>
      if id = "1" then some { id := "1", name := "One" } else none,
    get_similar_artists := fun id _ =>
      if id = "1" then
        [{ id := "2", name := "Two", track_count := 9, similarity_score := some (mkRat 3 4) },
         { id := "3", name := "Three", track_count := 5, similarity_score := some (mkRat 1 4) }]
      else if id = "2" then
        [{ id := "3", name := "Three", track_count := 5, similarity_score := some (mkRat 1 4) },
         { id := "4", name := "Four", track_count := 8, similarity_score := some (mkRat 1 2) }]
      else [],
    check_artist_has_content_in_years := fun _ _ => true }

/-- Options for the bound/invariant witnesses. -/
def optsSmall : DownloadOptions :=
  { similar_limit := 2, max_depth := 2, max_total_artists := 4 }

/-- Artist literal with a given id. -/
def plainArtist (id : String) : Artist := { id := id, name := id }

/-- Checkpoint with `processed_artist_ids = {A, B}`. -/
def cpAB : ProgressCheckpoint :=
  { session_name := "s", processed_artist_ids := ["A", "B"] }

/-- A current checkpoint for session `s` that already processed `A`. -/
def cpSessionS : ProgressCheckpoint :=
  { session_name := "s", processed_artist_ids := ["A"], last_artist_index := 1 }

/-- A download environment whose HTTP fetch fails with a client error. -/
def envNetFail : DlEnv :=
  { urlFor := some "http://u", net := .clientError "boom",
    fileExists := fun _ => false, cachePath := "/cache/t.mp3",
    maxFileSizeBytes := 104857600, songsCacheTtl := 0 }

/-- An expired in-memory cache entry and a cache holding it. -/
def expiredEntry : MCEntry := { value := "v", created_at := 0, ttl_seconds := 10 }

/-- A cache holding only the expired entry under key `k`. -/
def cacheWithExpired : MemCache := [("k", expiredEntry)]

/-! ### Invariants of a `discover_recursive` run -/

/-- The reachability invariant of the discovery state: the discovered map
has duplicate-free keys, every key is visited, the seed is visited, and
every entry is internally consistent — its `id` is its key and (except for
the seed) its `discovered_from` names a present parent whose depth is one
less. -/
def LoopInv (seedId : String) (st : DiscState) : Prop :=
  (st.discovered.map Prod.fst).Nodup ∧
  (∀ k, (lookupAssoc st.discovered k).isSome → k ∈ st.visited) ∧
  seedId ∈ st.visited ∧
  (∀ k a, lookupAssoc st.discovered k = some a → a.id = k ∧
    (k ≠ seedId → ∃ pid pa, a.discovered_from = some pid ∧
      lookupAssoc st.discovered pid = some pa ∧ a.depth = pa.depth + 1))

/-- The post-condition bundle of one `admitLoop` run from state `st` with
`next_level` list `nl` and selected list `sel`: existing entries are
preserved exactly, visitedness is monotone, the reachability invariant is
maintained, the tree is untouched, new keys were unvisited, depth bounds
are maintained, the next-level property is maintained, the total-artist cap
is respected, and the selected list respects `similar_limit`. -/
def AdmitPost (opts : DownloadOptions) (seedId : String) (d : Nat)
    (st : DiscState) (nl sel : List String)
    (res : DiscState × List String × List String) : Prop :=
  (∀ k a, lookupAssoc st.discovered k = some a → lookupAssoc res.1.discovered k = some a) ∧
  (∀ x ∈ st.visited, x ∈ res.1.visited) ∧
  LoopInv seedId res.1 ∧
  res.1.tree = st.tree ∧
  (∀ k a, lookupAssoc res.1.discovered k = some a →
      lookupAssoc st.discovered k = some a ∨ k ∉ st.visited) ∧
  (∀ D, d ≤ D → (∀ k a, lookupAssoc st.discovered k = some a → a.depth ≤ D) →
      ∀ k a, lookupAssoc res.1.discovered k = some a → a.depth ≤ D) ∧
  ((∀ x ∈ nl, ∃ a, lookupAssoc st.discovered x = some a ∧ a.depth = d) →
      ∀ x ∈ res.2.1, ∃ a, lookupAssoc res.1.discovered x = some a ∧ a.depth = d) ∧
  (st.discovered.length ≤ opts.max_total_artists →
      res.1.discovered.length ≤ opts.max_total_artists) ∧
  (sel.length ≤ opts.similar_limit → res.2.2.length ≤ opts.similar_limit)

/-- The post-condition bundle of processing one parent or one whole level
from state `st` with `next_level` list `nl` at depth `d`: entries are
preserved exactly, visitedness is monotone, the reachability invariant and
the per-parent tree bound are maintained, new keys were unvisited, depth
bounds are maintained, the next-level property is maintained, and the
total-artist cap is respected. -/
def StepPost (opts : DownloadOptions) (seedId : String) (d : Nat)
    (st : DiscState) (nl : List String) (res : DiscState × List String) : Prop :=
  (∀ k a, lookupAssoc st.discovered k = some a → lookupAssoc res.1.discovered k = some a) ∧
  (∀ x ∈ st.visited, x ∈ res.1.visited) ∧
  LoopInv seedId res.1 ∧
  ((∀ pr ∈ st.tree, pr.2.length ≤ opts.similar_limit) →
      ∀ pr ∈ res.1.tree, pr.2.length ≤ opts.similar_limit) ∧
  (∀ k a, lookupAssoc res.1.discovered k = some a →
      lookupAssoc st.discovered k = some a ∨ k ∉ st.visited) ∧
  (∀ D, d ≤ D → (∀ k a, lookupAssoc st.discovered k = some a → a.depth ≤ D) →
      ∀ k a, lookupAssoc res.1.discovered k = some a → a.depth ≤ D) ∧
  ((∀ x ∈ nl, ∃ a, lookupAssoc st.discovered x = some a ∧ a.depth = d) →
      ∀ x ∈ res.2, ∃ a, lookupAssoc res.1.discovered x = some a ∧ a.depth = d) ∧
  (st.discovered.length ≤ opts.max_total_artists →
      res.1.discovered.length ≤ opts.max_total_artists)

/-- The result of `discoverRecursive svcSmall optsSmall "1"`. -/
def smallResult : DiscoveryResult :=
  { base_artist := { id := "1", name := "One" },
    discovered_artists :=
      [{ id := "1", name := "One" },
       { id := "2", name := "Two", track_count := 9, similarity_score := some (mkRat 3 4),
         discovered_from := some "1", depth := 1 },
       { id := "3", name := "Three", track_count := 5, similarity_score := some (mkRat 1 4),
         discovered_from := some "1", depth := 1 },
       { id := "4", name := "Four", track_count := 8, similarity_score := some (mkRat 1 2),
         discovered_from := some "2", depth := 2 }],
    discovery_tree := [("1", ["2", "3"]), ("2", ["4"])],
    total_discovered := 4,
    max_depth_reached := 2,
    countries_found := [] }

end YMusic

/-!  ## Theorems

First the generic association-list and helper lemmas, then one theorem per
claim (with its counterexample or witness where required). -/

namespace YMusic

theorem lookupAssoc_update_self {α : Type} (l : List (String × α)) (k : String) (v : α) :
    lookupAssoc (updateAssoc l k v) k = some v := by
  induction l with
  | nil => simp [updateAssoc, lookupAssoc]
  | cons hd tl ih =>
    obtain ⟨k', v'⟩ := hd
    by_cases h : k' = k
    · simp [updateAssoc, lookupAssoc, h]
    · simp [updateAssoc, lookupAssoc, h, ih]

theorem lookupAssoc_update_ne {α : Type} (l : List (String × α)) (k k' : String) (v : α)
    (h : k ≠ k') : lookupAssoc (updateAssoc l k v) k' = lookupAssoc l k' := by
  induction l with
  | nil => simp [updateAssoc, lookupAssoc, h]
  | cons hd tl ih =>
    obtain ⟨k₀, v₀⟩ := hd
    by_cases h₀ : k₀ = k
    · subst h₀
      simp [updateAssoc, lookupAssoc, h]
    · by_cases h₁ : k₀ = k'
      · subst h₁
        simp [updateAssoc, lookupAssoc, h₀]
      · simp [updateAssoc, lookupAssoc, h₀, h₁, ih]

theorem length_updateAssoc_le {α : Type} (l : List (String × α)) (k : String) (v : α) :
    (updateAssoc l k v).length ≤ l.length + 1 := by
  induction l with
  | nil => simp [updateAssoc]
  | cons hd tl ih =>
    obtain ⟨k', v'⟩ := hd
    by_cases h : k' = k
    · simp [updateAssoc, h]
    · simp only [updateAssoc, h, if_false, List.length_cons]
      omega

theorem lookupAssoc_eq_none_of_not_mem_keys {α : Type} (l : List (String × α)) (k : String)
    (h : k ∉ l.map Prod.fst) : lookupAssoc l k = none := by
  induction l with
  | nil => rfl
  | cons hd tl ih =>
    obtain ⟨k', v'⟩ := hd
    simp only [List.map_cons, List.mem_cons] at h
    push_neg at h
    simp [lookupAssoc, Ne.symm h.1, ih h.2]

theorem lookupAssoc_isSome_iff_mem_keys {α : Type} (l : List (String × α)) (k : String) :
    (lookupAssoc l k).isSome ↔ k ∈ l.map Prod.fst := by
  induction l with
  | nil => simp [lookupAssoc]
  | cons hd tl ih =>
    obtain ⟨k', v'⟩ := hd
    by_cases h : k' = k
    · simp [lookupAssoc, h]
    · simp [lookupAssoc, h, ih, Ne.symm h]

theorem lookupAssoc_mem {α : Type} (l : List (String × α)) (k : String) (v : α)
    (h : lookupAssoc l k = some v) : (k, v) ∈ l := by
  induction l with
  | nil => simp [lookupAssoc] at h
  | cons hd tl ih =>
    obtain ⟨k', v'⟩ := hd
    by_cases hk : k' = k
    · subst hk
      simp [lookupAssoc] at h
      subst h
      exact List.mem_cons_self _ _
    · simp [lookupAssoc, hk] at h
      exact List.mem_cons_of_mem _ (ih h)

theorem mem_lookupAssoc {α : Type} (l : List (String × α)) (k : String) (v : α)
    (h : (k, v) ∈ l) : (lookupAssoc l k).isSome := by
  induction l with
  | nil => simp at h
  | cons hd tl ih =>
    obtain ⟨k', v'⟩ := hd
    rcases List.mem_cons.mp h with h₁ | h₂
    · cases h₁
      simp [lookupAssoc]
    · by_cases hk : k' = k
      · simp [lookupAssoc, hk]
      · simpa [lookupAssoc, hk] using ih h₂

theorem lookupAssoc_erase_self {α : Type} (l : List (String × α)) (k : String)
    (hnd : (l.map Prod.fst).Nodup) : lookupAssoc (eraseKey l k) k = none := by
  induction l with
  | nil => rfl
  | cons hd tl ih =>
    obtain ⟨k', v'⟩ := hd
    simp only [List.map_cons, List.nodup_cons] at hnd
    by_cases h : k' = k
    · subst h
      simp only [eraseKey, if_pos rfl]
      apply lookupAssoc_eq_none_of_not_mem_keys
      exact hnd.1
    · simp [eraseKey, h, lookupAssoc, ih hnd.2]

theorem lookupAssoc_erase_ne {α : Type} (l : List (String × α)) (k k' : String)
    (h : k ≠ k') : lookupAssoc (eraseKey l k) k' = lookupAssoc l k' := by
  induction l with
  | nil => rfl
  | cons hd tl ih =>
    obtain ⟨k₀, v₀⟩ := hd
    by_cases h₀ : k₀ = k
    · subst h₀
      simp [eraseKey, lookupAssoc, h]
    · simp [eraseKey, h₀, lookupAssoc, ih]

theorem eraseKey_sublist {α : Type} (l : List (String × α)) (k : String) :
    (eraseKey l k).Sublist l := by
  induction l with
  | nil => simp [eraseKey]
  | cons hd tl ih =>
    obtain ⟨k', v'⟩ := hd
    by_cases h : k' = k
    · simp only [eraseKey, if_pos h]
      exact List.sublist_cons_self (k', v') tl
    · simpa [eraseKey, h] using List.Sublist.cons₂ (k', v') ih

theorem nodup_keys_eraseKey {α : Type} (l : List (String × α)) (k : String)
    (hnd : (l.map Prod.fst).Nodup) : ((eraseKey l k).map Prod.fst).Nodup :=
  hnd.sublist ((eraseKey_sublist l k).map Prod.fst)

/-! ### Claim C1 — seed-not-found error class -/

/-- C1 as stated is false: when the seed does not resolve, the
`NotFoundError` raised inside the `try` of `discover_recursive` (and of
`discover_similar_artists`) is caught by the functions' own
`except Exception` clause and rewrapped, so the caller receives a
`ServiceError`, not a `NotFoundError`.  Concretely, on a catalog that
resolves no artist, both entry points fail with `ServiceError`. -/
theorem claim1_counterexample :
    discFailure (discoverRecursive svcAbsent {} "1") =
      some (.serviceError "Recursive discovery failed: Artist 1 not found") ∧
    discFailure (discoverSimilarArtists svcAbsent {} "1") =
      some (.serviceError "Discovery failed: Artist 1 not found") ∧
    isNotFoundFailure (discoverRecursive svcAbsent {} "1") = false ∧
    isNotFoundFailure (discoverSimilarArtists svcAbsent {} "1") = false := by
  refine ⟨rfl, rfl, rfl, rfl⟩

/-- C1 (amended): for every seed id the catalog does not resolve,
`discover_recursive` and `discover_similar_artists` fail with a
`ServiceError` wrapping the internal not-found message (the
`NotFoundError` is raised at lines 130/42 but immediately rewrapped by the
`except Exception` clauses at lines 311-313/113-115). -/
theorem claim1_amended (svc : MusicService) (opts : DownloadOptions) (artistId : String)
    (h : svc.get_artist artistId = none) :
    discoverRecursive svc opts artistId =
      .error (.serviceError ("Recursive discovery failed: " ++
        ("Artist " ++ artistId ++ " not found"))) ∧
    discoverSimilarArtists svc opts artistId =
      .error (.serviceError ("Discovery failed: " ++
        ("Artist " ++ artistId ++ " not found"))) := by
  constructor
  · simp [discoverRecursive, discoverRecursiveBody, h, DiscError.msg]
  · simp [discoverSimilarArtists, discoverSimilarArtistsBody, h, DiscError.msg]

/-- Witness for C1 (amended) at the concrete absent-seed catalog. -/
theorem claim1_amended_witness :
    discoverRecursive svcAbsent {} "1" =
      .error (.serviceError "Recursive discovery failed: Artist 1 not found") ∧
    discoverSimilarArtists svcAbsent {} "1" =
      .error (.serviceError "Discovery failed: Artist 1 not found") :=
  claim1_amended svcAbsent {} "1" rfl

/-! ### Claim C2 — seed transparency under year filtering -/

/-- C2 is right about the intent but the code violates it: `cli.py`
excludes a seed without year-range content from `discovered_artists`
(lines 287-298, "Don't add base artist to results, but continue ..."),
but the recursive branch then rebinds `discovered_artists` to
`result.discovered_artists` (line 343), and `discover_recursive` itself
puts the seed into `discovered_artists` unconditionally (line 138) with no
year check.  At the failing input — year filter 2020-2024 enabled, seed `S`
without content in range, one similar artist `C` with content, depth 1 —
the returned list still contains the seed `S` (traversal did proceed:
`C` was discovered from `S`). -/
theorem claim2_code_bug :
    svcSeedNoYear.check_artist_has_content_in_years "S" (2020, 2024) = false ∧
    optsSeedNoYear.enable_year_filtering_for_discovery = true ∧
    (okList (cliDiscoverArtists svcSeedNoYear optsSeedNoYear "S")).map Artist.id =
      ["S", "C"] ∧
    "S" ∈ (okList (cliDiscoverArtists svcSeedNoYear optsSeedNoYear "S")).map Artist.id := by
  refine ⟨rfl, rfl, rfl, ?_⟩
  decide

/-! ### Claim C3 — candidate ranking -/

/-- C3 as stated is false: `_select_discovery_candidates` applies the
priority-country partition *before* the global
`sort(key=(score, track_count), reverse=True)`, so the final order is the
global sort and a non-priority candidate with a higher score precedes a
priority-region candidate.  Here `A` (US, score 9/10) precedes `B`
(UZ, score 1/2) although `UZ` is the priority region. -/
theorem claim3_counterexample :
    selectDiscoveryCandidates [candHighScore, candPriority] [] optsPriority =
      [candHighScore, candPriority] ∧
    candPriority.country = some "UZ" ∧
    candHighScore.country = some "US" ∧
    optsPriority.priority_countries = ["UZ"] := by
  refine ⟨?_, rfl, rfl, rfl⟩
  decide

/-- C3 (amended): after discarding visited, excluded and
below-minimum-catalog-size candidates, the produced list is the whole
filtered candidate set ordered by (similarity score, catalog size)
descending; the priority-region partition is applied before that global
sort and therefore only fixes the relative order of candidates with equal
keys, it does not put priority-region candidates first. -/
theorem claim3_amended (similar : List Artist) (visited : List String)
    (opts : DownloadOptions) :
    List.Pairwise rankRel (selectDiscoveryCandidates similar visited opts) ∧
    (selectDiscoveryCandidates similar visited opts).Perm
      (discoveryFilter similar visited opts) := by
  constructor
  · exact List.sorted_insertionSort rankRel _
  · have hperm := List.perm_insertionSort rankRel
      (if opts.priority_countries ≠ [] then
          applyPriorityCountries (discoveryFilter similar visited opts) opts.priority_countries
        else discoveryFilter similar visited opts)
    refine hperm.trans ?_
    by_cases h : opts.priority_countries = []
    · simp [h]
    · simp only [h, ne_eq, not_false_iff, if_true, applyPriorityCountries, if_neg h]
      exact List.filter_append_perm _ _

/-! ### Claim C6 — checkpoint remaining-work computation -/

/-- C6 confirmed: `get_remaining_artists` is a set difference over
`processed_artist_ids` — the result is a sublist of the input (order
preserved) containing exactly the artists whose ids are not processed; in
particular with `processed = {A, B}` and list `[A, B, C, D]` it returns
`[C, D]`. -/
theorem claim6_remaining (cp : ProgressCheckpoint) (allArtists : List Artist) :
    (getRemainingArtists (some cp) allArtists).Sublist allArtists ∧
    (∀ a, a ∈ getRemainingArtists (some cp) allArtists ↔
      a ∈ allArtists ∧ a.id ∉ cp.processed_artist_ids) ∧
    getRemainingArtists (some cpAB)
        [plainArtist "A", plainArtist "B", plainArtist "C", plainArtist "D"] =
      [plainArtist "C", plainArtist "D"] := by
  refine ⟨List.filter_sublist _, ?_, by decide⟩
  intro a
  simp [getRemainingArtists, List.mem_filter]

/-! ### Claim C7 — checkpoint monotonicity -/

/-- C7 as stated is false for `last_artist_index`: `save_checkpoint`
assigns `checkpoint.last_artist_index = artist_index` unconditionally, so
saving index 5 and then index 3 on the same session decreases it. -/
theorem claim7_counterexample :
    (saveCheckpoint (some (saveCheckpoint none "s" "A" 5 none none)) "s" "B" 3
        none none).last_artist_index <
      (saveCheckpoint none "s" "A" 5 none none).last_artist_index := by
  decide

/-- C7 (amended): across any sequence of saves on the same session,
`processed_artist_ids` only grows (ids are only ever `add`ed); but
`last_artist_index` is simply set to each save's index argument — it is
non-decreasing only when the caller supplies non-decreasing indices (as
`cli.py` does with `offset + idx + 1`). -/
theorem claim7_amended (sessionName : String) (st : Option ProgressCheckpoint)
    (saves : List (String × Nat)) (x artistId : String) (idx : Nat)
    (hsess : ∀ cp, st = some cp → cp.session_name = sessionName)
    (hx : x ∈ processedOf st) :
    x ∈ processedOf (runSaves sessionName st saves) ∧
    (saveCheckpoint st sessionName artistId idx none none).last_artist_index = idx := by
  constructor
  · induction saves generalizing st with
    | nil => exact hx
    | cons p rest ih =>
      obtain ⟨aid, aidx⟩ := p
      have hstep : x ∈ processedOf (some (saveCheckpoint st sessionName aid aidx none none)) := by
        match st with
        | none => simp [processedOf] at hx
        | some cp =>
          have hs := hsess cp rfl
          simp only [saveCheckpoint, hs, if_pos rfl, processedOf] at hx ⊢
          unfold insertId
          by_cases hmem : aid ∈ cp.processed_artist_ids
          · simpa [hmem] using hx
          · simp only [hmem, if_neg]
            exact List.mem_append_left _ hx
      have hsess' : ∀ cp, some (saveCheckpoint st sessionName aid aidx none none) = some cp →
          cp.session_name = sessionName := by
        intro cp hcp
        cases hcp
        match st with
        | none => simp [saveCheckpoint]
        | some cp₀ =>
          by_cases h : cp₀.session_name = sessionName
          · simp [saveCheckpoint, h]
          · exact absurd (hsess cp₀ rfl) h
      simpa [runSaves] using ih _ hsess' hstep
  · match st with
    | none => simp [saveCheckpoint]
    | some cp =>
      by_cases h : cp.session_name = sessionName
      · simp [saveCheckpoint, h]
      · simp [saveCheckpoint, h]

/-- Witness for C7 (amended): session `s` already processed `A`; one more
save of `(B, 2)` keeps `A` processed and sets the index to 2. -/
theorem claim7_amended_witness :
    "A" ∈ processedOf (runSaves "s" (some cpSessionS) [("B", 2)]) ∧
    (saveCheckpoint (some cpSessionS) "s" "B" 2 none none).last_artist_index = 2 :=
  claim7_amended "s" (some cpSessionS) [("B", 2)] "A" "B" 2
    (by intro cp hcp; cases hcp; rfl) (by decide)

/-! ### Claim C10 — delete vs exists on an expired entry -/

/-- C10 confirmed: on a stored but expired (and not yet swept) entry,
`exists` returns `False` and removes the entry, while `delete` returns
`True` (`pop(key, None) is not None` reports presence of a stored entry,
live or expired). -/
theorem claim10_expired_delete_exists (now : Nat) (c : MemCache) (k : String) (e : MCEntry)
    (hl : lookupAssoc c k = some e) (he : entryExpired now e = true) :
    cacheExists now c k = (false, eraseKey c k) ∧
    cacheDelete c k = (true, eraseKey c k) := by
  constructor
  · simp [cacheExists, hl, he]
  · simp [cacheDelete, hl]

/-- Witness for C10 at a concrete expired entry (ttl 10, created 0,
queried at 20). -/
theorem claim10_witness :
    cacheExists 20 cacheWithExpired "k" = (false, eraseKey cacheWithExpired "k") ∧
    cacheDelete cacheWithExpired "k" = (true, eraseKey cacheWithExpired "k") :=
  claim10_expired_delete_exists 20 cacheWithExpired "k" expiredEntry rfl (by decide)

/-! ### Claim C9 — negative caching of failed downloads -/

theorem failedKey_ne_trackKey (id : String) : failedKey id ≠ trackKey id := by
  intro h
  have hlen := congrArg String.length h
  simp only [failedKey, trackKey, String.length_append] at hlen
  have h₁ : ("failed_track_" : String).length = 13 := rfl
  have h₂ : ("track_" : String).length = 6 := rfl
  omega

theorem nodup_keys_cacheGet_snd (now : Nat) (c : MemCache) (k : String)
    (hnd : (c.map Prod.fst).Nodup) : (((cacheGet now c k).2).map Prod.fst).Nodup := by
  unfold cacheGet
  cases h : lookupAssoc c k with
  | none => exact hnd
  | some e =>
    by_cases he : entryExpired now e
    · simpa [he] using nodup_keys_eraseKey c k hnd
    · simp [he]
      exact hnd

theorem cacheGet_fst_none_lookup_snd (now : Nat) (c : MemCache) (k : String)
    (hnd : (c.map Prod.fst).Nodup) (h : (cacheGet now c k).1 = none) :
    lookupAssoc ((cacheGet now c k).2) k = none := by
  unfold cacheGet at h ⊢
  cases hl : lookupAssoc c k with
  | none => simp [hl]
  | some e =>
    by_cases he : entryExpired now e
    · simpa [hl, he] using lookupAssoc_erase_self c k hnd
    · simp [hl, he] at h

theorem downloadFresh_urlCalls (env : DlEnv) (now : Nat) (id : String) (c : MemCache) :
    (downloadFresh env now id c).urlCalls = 1 := by
  obtain ⟨url, net, fe, cpath, mfs, sct⟩ := env
  unfold downloadFresh
  cases url with
  | none => rfl
  | some u =>
    cases net with
    | ok len =>
      by_cases h : mfs < len
      · simp [h]
      · simp [h]
    | badStatus code => rfl
    | clientError m => rfl
    | osError m => rfl

theorem downloadFresh_network_shape (env : DlEnv) (now : Nat) (id : String) (c : MemCache)
    (m : String) (h : (downloadFresh env now id c).result = .error (.networkError m)) :
    ∃ v, (downloadFresh env now id c).cache = cacheSet now c (failedKey id) v 300 := by
  obtain ⟨url, net, fe, cpath, mfs, sct⟩ := env
  unfold downloadFresh at h ⊢
  cases url with
  | none => simp at h
  | some u =>
    cases net with
    | ok len =>
      by_cases hsz : mfs < len
      · simp [hsz] at h
      · simp [hsz] at h
    | badStatus code => simp at h
    | clientError m' => exact ⟨m', rfl⟩
    | osError m' => simp at h

theorem downloadTrack_error_shape (env : DlEnv) (now : Nat) (id : String) (c : MemCache)
    (e : DlError) (hnd : (c.map Prod.fst).Nodup)
    (h : (downloadTrack env now id c).result = .error e) :
    ∃ cMid, ((cMid.map Prod.fst).Nodup) ∧ lookupAssoc cMid (trackKey id) = none ∧
      downloadTrack env now id c = downloadFresh env now id cMid := by
  unfold downloadTrack at h ⊢
  cases hneg : ((cacheGet now c (failedKey id)).1).isSome with
  | true => simp [hneg] at h
  | false =>
    have hnone : (cacheGet now c (failedKey id)).1 = none := by
      cases hx : (cacheGet now c (failedKey id)).1
      · rfl
      · rw [hx] at hneg; simp at hneg
    have hnd₁ : (((cacheGet now c (failedKey id)).2).map Prod.fst).Nodup :=
      nodup_keys_cacheGet_snd now c (failedKey id) hnd
    cases hpos : (cacheGet now ((cacheGet now c (failedKey id)).2) (trackKey id)).1 with
    | some path =>
      by_cases hex : env.fileExists path
      · simp [hneg, hpos, hex] at h
      · refine ⟨(cacheDelete (cacheGet now ((cacheGet now c (failedKey id)).2)
          (trackKey id)).2 (trackKey id)).2, ?_, ?_, ?_⟩
        · exact nodup_keys_eraseKey _ _
            (nodup_keys_cacheGet_snd now _ (trackKey id) hnd₁)
        · exact lookupAssoc_erase_self _ _
            (nodup_keys_cacheGet_snd now _ (trackKey id) hnd₁)
        · simp [hneg, hpos, hex]
    | none =>
      refine ⟨(cacheGet now ((cacheGet now c (failedKey id)).2) (trackKey id)).2, ?_, ?_, ?_⟩
      · exact nodup_keys_cacheGet_snd now _ (trackKey id) hnd₁
      · exact cacheGet_fst_none_lookup_snd now _ (trackKey id) hnd₁ hpos
      · simp [hneg, hpos]

/-- C9 confirmed: if a `download_track` call fails with `NetworkError`, the
cache afterwards holds a negative entry for the track, created now with the
5-minute (300 s) TTL; any second call within 300 seconds returns `False`
immediately with no URL resolution and no download request (whatever its
environment); and a call after the TTL has elapsed resolves a URL again,
i.e. performs a new network attempt. -/
theorem claim9_negative_cache (env env2 env3 : DlEnv) (now t1 t2 : Nat)
    (trackId : String) (c : MemCache) (m : String)
    (hnd : (c.map Prod.fst).Nodup)
    (h : (downloadTrack env now trackId c).result = .error (.networkError m))
    (ht1 : t1 - now ≤ 300) (ht2 : 300 < t2 - now) :
    negEntryAt (downloadTrack env now trackId c).cache trackId now ∧
    (downloadTrack env2 t1 trackId (downloadTrack env now trackId c).cache).result =
      .ok false ∧
    (downloadTrack env2 t1 trackId (downloadTrack env now trackId c).cache).urlCalls = 0 ∧
    (downloadTrack env2 t1 trackId (downloadTrack env now trackId c).cache).httpCalls = 0 ∧
    (downloadTrack env3 t2 trackId (downloadTrack env now trackId c).cache).urlCalls = 1 := by
  obtain ⟨cMid, hndMid, hposMid, hshape⟩ :=
    downloadTrack_error_shape env now trackId c _ hnd h
  rw [hshape] at h ⊢
  obtain ⟨v, hcache⟩ := downloadFresh_network_shape env now trackId cMid m h
  rw [hcache]
  have hlookF : lookupAssoc (cacheSet now cMid (failedKey trackId) v 300) (failedKey trackId) =
      some { value := v, created_at := now, ttl_seconds := 300 } :=
    lookupAssoc_update_self cMid (failedKey trackId) _
  have hlookT : lookupAssoc (cacheSet now cMid (failedKey trackId) v 300) (trackKey trackId) =
      none := by
    rw [cacheSet, lookupAssoc_update_ne cMid (failedKey trackId) (trackKey trackId) _
      (failedKey_ne_trackKey trackId)]
    exact hposMid
  have hexp1 : entryExpired t1 { value := v, created_at := now, ttl_seconds := 300 } = false := by
    unfold entryExpired
    simp only [decide_eq_false_iff_not, not_lt]
    exact ht1
  have hexp2 : entryExpired t2 { value := v, created_at := now, ttl_seconds := 300 } = true := by
    unfold entryExpired
    simpa using ht2
  refine ⟨?_, ?_, ?_, ?_, ?_⟩
  · unfold negEntryAt
    rw [hlookF]
    exact ⟨rfl, rfl⟩
  · unfold downloadTrack
    simp [cacheGet, hlookF, hexp1]
  · unfold downloadTrack
    simp [cacheGet, hlookF, hexp1]
  · unfold downloadTrack
    simp [cacheGet, hlookF, hexp1]
  · have hpos3 : lookupAssoc
        (eraseKey (cacheSet now cMid (failedKey trackId) v 300) (failedKey trackId))
        (trackKey trackId) = none := by
      rw [lookupAssoc_erase_ne _ _ _ (failedKey_ne_trackKey trackId)]
      exact hlookT
    unfold downloadTrack
    simp only [cacheGet, hlookF, hexp2, if_true, Option.isSome_none, Bool.false_eq_true,
      if_false, hpos3]
    exact downloadFresh_urlCalls env3 t2 trackId _

/-- Witness for C9: a client error at time 1000 on an empty cache; a retry
at 1100 is suppressed, a retry at 1400 resolves a URL again. -/
theorem claim9_witness :
    negEntryAt (downloadTrack envNetFail 1000 "T" []).cache "T" 1000 ∧
    (downloadTrack envNetFail 1100 "T" (downloadTrack envNetFail 1000 "T" []).cache).result =
      .ok false ∧
    (downloadTrack envNetFail 1100 "T" (downloadTrack envNetFail 1000 "T" []).cache).urlCalls =
      0 ∧
    (downloadTrack envNetFail 1100 "T" (downloadTrack envNetFail 1000 "T" []).cache).httpCalls =
      0 ∧
    (downloadTrack envNetFail 1400 "T" (downloadTrack envNetFail 1000 "T" []).cache).urlCalls =
      1 :=
  claim9_negative_cache envNetFail envNetFail envNetFail 1000 1100 1400 "T" []
    "Network error: boom" List.nodup_nil rfl (by decide) (by decide)

/-! ### Claims C4 and C5 — invariants of the recursive traversal -/

theorem updateAssoc_fresh {α : Type} (l : List (String × α)) (k : String) (v : α)
    (h : lookupAssoc l k = none) : updateAssoc l k v = l ++ [(k, v)] := by
  induction l with
  | nil => rfl
  | cons hd tl ih =>
    obtain ⟨k', v'⟩ := hd
    by_cases hk : k' = k
    · simp [lookupAssoc, hk] at h
    · simp only [lookupAssoc, hk, if_neg] at h
      simp [updateAssoc, hk, ih h]

theorem lookupAssoc_of_mem_nodup {α : Type} (l : List (String × α)) (k : String) (v : α)
    (hnd : (l.map Prod.fst).Nodup) (hm : (k, v) ∈ l) : lookupAssoc l k = some v := by
  induction l with
  | nil => simp at hm
  | cons hd tl ih =>
    obtain ⟨k', v'⟩ := hd
    simp only [List.map_cons, List.nodup_cons] at hnd
    rcases List.mem_cons.mp hm with h | h
    · cases h
      simp [lookupAssoc]
    · have hk : k' ≠ k := by
        intro he
        subst he
        exact hnd.1 (List.mem_map.mpr ⟨(k', v), h, rfl⟩)
      simp [lookupAssoc, hk, ih hnd.2 h]

theorem mem_updateAssoc {α : Type} (l : List (String × α)) (k : String) (v : α)
    (p : String × α) (h : p ∈ updateAssoc l k v) : p ∈ l ∨ p = (k, v) := by
  induction l with
  | nil => simpa [updateAssoc] using h
  | cons hd tl ih =>
    obtain ⟨k', v'⟩ := hd
    by_cases hk : k' = k
    · simp only [updateAssoc, hk, if_pos rfl] at h
      rcases List.mem_cons.mp h with h' | h'
      · exact Or.inr h'
      · exact Or.inl (List.mem_cons_of_mem _ h')
    · simp only [updateAssoc, hk, if_neg] at h
      rcases List.mem_cons.mp h with h' | h'
      · exact Or.inl (h' ▸ List.mem_cons_self _ _)
      · rcases ih h' with h'' | h''
        · exact Or.inl (List.mem_cons_of_mem _ h'')
        · exact Or.inr h''

theorem lookupAssoc_update_cases {α : Type} (l : List (String × α)) (k k' : String)
    (v a : α) (h : lookupAssoc (updateAssoc l k v) k' = some a) :
    (k' = k ∧ a = v) ∨ (k' ≠ k ∧ lookupAssoc l k' = some a) := by
  by_cases hk : k' = k
  · subst hk
    rw [lookupAssoc_update_self] at h
    exact Or.inl ⟨rfl, (Option.some_injective _ h).symm⟩
  · rw [lookupAssoc_update_ne l k k' v (fun he => hk he.symm)] at h
    exact Or.inr ⟨hk, h⟩

/-- The key facts about one admission step. -/
theorem admit_step (seedId parentId : String) (d : Nat) (st : DiscState) (c : Artist)
    (hcv : c.id ∉ st.visited)
    (HInv : LoopInv seedId st)
    (Hpar : ∃ pa, lookupAssoc st.discovered parentId = some pa ∧ pa.depth + 1 = d) :
    (∀ k a, lookupAssoc st.discovered k = some a →
        lookupAssoc (admitState st c parentId d).discovered k = some a) ∧
    LoopInv seedId (admitState st c parentId d) ∧
    (∃ pa, lookupAssoc (admitState st c parentId d).discovered parentId = some pa ∧
        pa.depth + 1 = d) ∧
    lookupAssoc (admitState st c parentId d).discovered c.id =
      some { c with depth := d, discovered_from := some parentId } ∧
    (admitState st c parentId d).discovered.length = st.discovered.length + 1 := by
  obtain ⟨hnd, hkeys, hseed, hlink⟩ := HInv
  obtain ⟨pa, hpa, hpd⟩ := Hpar
  have hfresh : lookupAssoc st.discovered c.id = none := by
    cases hx : lookupAssoc st.discovered c.id with
    | none => rfl
    | some a => exact absurd (hkeys c.id (by simp [hx])) hcv
  have hupd := updateAssoc_fresh st.discovered c.id
    { c with depth := d, discovered_from := some parentId } hfresh
  have hpres : ∀ k a, lookupAssoc st.discovered k = some a →
      lookupAssoc (admitState st c parentId d).discovered k = some a := by
    intro k a h
    have hkc : k ≠ c.id := by
      intro he
      subst he
      rw [h] at hfresh
      exact Option.noConfusion hfresh
    show lookupAssoc (updateAssoc st.discovered c.id _) k = some a
    rw [lookupAssoc_update_ne st.discovered c.id k _ (fun he => hkc he.symm)]
    exact h
  have hparent_ne : parentId ≠ c.id := by
    intro he
    subst he
    rw [hpa] at hfresh
    exact Option.noConfusion hfresh
  have hcid_ne_seed : c.id ≠ seedId := by
    intro he
    exact hcv (he ▸ hseed)
  refine ⟨hpres, ⟨?_, ?_, ?_, ?_⟩, ?_, ?_, ?_⟩
  · show ((updateAssoc st.discovered c.id _).map Prod.fst).Nodup
    rw [hupd]
    simp only [List.map_append, List.map_cons, List.map_nil]
    rw [List.nodup_append]
    refine ⟨hnd, List.nodup_singleton _, ?_⟩
    intro x hx hx2
    simp only [List.mem_singleton] at hx2
    subst hx2
    have hsome : (lookupAssoc st.discovered c.id).isSome :=
      (lookupAssoc_isSome_iff_mem_keys st.discovered c.id).mpr hx
    rw [hfresh] at hsome
    simp at hsome
  · intro k hk
    show k ∈ st.visited ++ [c.id]
    rcases hx : lookupAssoc (admitState st c parentId d).discovered k with _ | a
    · rw [hx] at hk
      simp at hk
    · rcases lookupAssoc_update_cases st.discovered c.id k _ a hx with ⟨he, _⟩ | ⟨hne, hold⟩
      · subst he
        simp
      · exact List.mem_append_left _ (hkeys k (by simp [hold]))
  · exact List.mem_append_left _ hseed
  · intro k a hk
    rcases lookupAssoc_update_cases st.discovered c.id k _ a hk with ⟨he, hv⟩ | ⟨hne, hold⟩
    · subst he
      subst hv
      refine ⟨rfl, fun _ => ⟨parentId, pa, rfl, ?_, by simpa using hpd.symm⟩⟩
      exact hpres parentId pa hpa
    · obtain ⟨hid, hrest⟩ := hlink k a hold
      refine ⟨hid, fun hks => ?_⟩
      obtain ⟨pid, pa', hfrom, hplook, hdep⟩ := hrest hks
      exact ⟨pid, pa', hfrom, hpres pid pa' hplook, hdep⟩
  · exact ⟨pa, hpres parentId pa hpa, hpd⟩
  · exact lookupAssoc_update_self st.discovered c.id _
  · show (updateAssoc st.discovered c.id _).length = st.discovered.length + 1
    rw [hupd]
    simp

/-- `AdmitPost` holds reflexively when the loop stops. -/
theorem admitPost_refl (opts : DownloadOptions) (seedId : String) (d : Nat)
    (st : DiscState) (nl sel : List String) (HInv : LoopInv seedId st) :
    AdmitPost opts seedId d st nl sel (st, nl, sel) := by
  refine ⟨fun k a h => h, fun x hx => hx, HInv, rfl, fun k a h => Or.inl h,
    fun D _ hpre => hpre, fun h => h, fun h => h, fun h => h⟩

/-- Composing one admission with an `AdmitPost` of the remaining loop. -/
theorem admitPost_step (opts : DownloadOptions) (seedId parentId : String) (d : Nat)
    (st : DiscState) (c : Artist) (nl sel : List String)
    (res : DiscState × List String × List String)
    (hcv : c.id ∉ st.visited)
    (HInv : LoopInv seedId st)
    (Hpar : ∃ pa, lookupAssoc st.discovered parentId = some pa ∧ pa.depth + 1 = d)
    (hlt : st.discovered.length < opts.max_total_artists)
    (hsel : sel.length < opts.similar_limit)
    (hpost : AdmitPost opts seedId d (admitState st c parentId d)
      (nl ++ [c.id]) (sel ++ [c.id]) res) :
    AdmitPost opts seedId d st nl sel res := by
  obtain ⟨s1, s2, _s3, s4, s5⟩ := admit_step seedId parentId d st c hcv HInv Hpar
  obtain ⟨p1, p2, p3, p4, p5, p6, p7, p8, p9⟩ := hpost
  refine ⟨fun k a h => p1 k a (s1 k a h), ?_, p3, p4, ?_, ?_, ?_, ?_, ?_⟩
  · intro x hx
    exact p2 x (List.mem_append_left _ hx)
  · intro k a h
    rcases p5 k a h with h' | h'
    · rcases lookupAssoc_update_cases st.discovered c.id k _ a h' with ⟨he, _⟩ | ⟨_, hold⟩
      · subst he
        exact Or.inr hcv
      · exact Or.inl hold
    · have : k ∉ st.visited := by
        intro hk
        exact h' (List.mem_append_left _ hk)
      exact Or.inr this
  · intro D hD hpre
    refine p6 D hD ?_
    intro k a h
    rcases lookupAssoc_update_cases st.discovered c.id k _ a h with ⟨_, hv⟩ | ⟨_, hold⟩
    · subst hv
      exact hD
    · exact hpre k a hold
  · intro hnl
    refine p7 ?_
    intro x hx
    rcases List.mem_append.mp hx with hx' | hx'
    · obtain ⟨a, ha, hd⟩ := hnl x hx'
      exact ⟨a, s1 x a ha, hd⟩
    · simp only [List.mem_singleton] at hx'
      subst hx'
      exact ⟨_, s4, rfl⟩
  · intro _
    refine p8 ?_
    rw [s5]
    omega
  · intro _
    refine p9 ?_
    simp only [List.length_append, List.length_singleton]
    omega

/-- The full invariant bundle of `admitLoop`. -/
theorem admitLoop_invariant (svc : MusicService) (opts : DownloadOptions)
    (seedId parentId : String) (d maxAttempts : Nat) (cands : List Artist) :
    ∀ (st : DiscState) (nl sel : List String) (checked : Nat),
    (∀ c ∈ cands, c.id ∉ st.visited) →
    ((cands.map Artist.id).Nodup) →
    LoopInv seedId st →
    (∃ pa, lookupAssoc st.discovered parentId = some pa ∧ pa.depth + 1 = d) →
    AdmitPost opts seedId d st nl sel
      (admitLoop svc opts parentId d maxAttempts cands st nl sel checked) := by
  induction cands with
  | nil =>
    intro st nl sel checked _ _ HInv _
    exact admitPost_refl opts seedId d st nl sel HInv
  | cons c rest ih =>
    intro st nl sel checked hfresh hnd HInv Hpar
    have hfc : c.id ∉ st.visited := hfresh c (List.mem_cons_self _ _)
    have hfr : ∀ c' ∈ rest, c'.id ∉ st.visited :=
      fun c' hc' => hfresh c' (List.mem_cons_of_mem _ hc')
    simp only [List.map_cons, List.nodup_cons] at hnd
    unfold admitLoop
    by_cases h1 : opts.max_total_artists ≤ st.discovered.length
    · simp only [h1, if_true]
      exact admitPost_refl opts seedId d st nl sel HInv
    · simp only [h1, if_false]
      by_cases h2 : opts.similar_limit ≤ sel.length
      · simp only [h2, if_true]
        exact admitPost_refl opts seedId d st nl sel HInv
      · simp only [h2, if_false]
        have hlt : st.discovered.length < opts.max_total_artists := Nat.lt_of_not_le h1
        have hsel : sel.length < opts.similar_limit := Nat.lt_of_not_le h2
        have hadmit : ∀ checked', AdmitPost opts seedId d st nl sel
            (admitLoop svc opts parentId d maxAttempts rest (admitState st c parentId d)
              (nl ++ [c.id]) (sel ++ [c.id]) checked') := by
          intro checked'
          obtain ⟨s1, s2, s3, s4, s5⟩ := admit_step seedId parentId d st c hfc HInv Hpar
          have hfr' : ∀ c' ∈ rest, c'.id ∉ (admitState st c parentId d).visited := by
            intro c' hc'
            show c'.id ∉ st.visited ++ [c.id]
            intro hmem
            rcases List.mem_append.mp hmem with h' | h'
            · exact hfr c' hc' h'
            · simp only [List.mem_singleton] at h'
              exact hnd.1 (h' ▸ List.mem_map.mpr ⟨c', hc', rfl⟩)
          exact admitPost_step opts seedId parentId d st c nl sel _ hfc HInv Hpar hlt hsel
            (ih (admitState st c parentId d) (nl ++ [c.id]) (sel ++ [c.id]) checked'
              hfr' hnd.2 s2 s3)
        cases hy : opts.years with
        | none => exact hadmit checked
        | some years =>
          by_cases h3 : opts.enable_year_filtering_for_discovery
          · simp only [h3, if_true]
            by_cases h4 : maxAttempts < checked + 1
            · simp only [h4, if_true]
              exact admitPost_refl opts seedId d st nl sel HInv
            · simp only [h4, if_false]
              by_cases h5 : !svc.check_artist_has_content_in_years c.id years
              · simp only [h5, if_true]
                exact ih st nl sel (checked + 1) hfr hnd.2 HInv Hpar
              · simp only [h5, if_false]
                exact hadmit (checked + 1)
          · simp only [h3, if_false]
            exact hadmit checked

theorem select_perm_filter (similar : List Artist) (visited : List String)
    (opts : DownloadOptions) :
    (selectDiscoveryCandidates similar visited opts).Perm
      (discoveryFilter similar visited opts) := by
  have hperm := List.perm_insertionSort rankRel
    (if opts.priority_countries ≠ [] then
        applyPriorityCountries (discoveryFilter similar visited opts) opts.priority_countries
      else discoveryFilter similar visited opts)
  refine hperm.trans ?_
  by_cases h : opts.priority_countries = []
  · simp [h]
  · simp only [h, ne_eq, not_false_iff, if_true, applyPriorityCountries, if_neg h]
    exact List.filter_append_perm _ _

theorem mem_select_filter (similar : List Artist) (visited : List String)
    (opts : DownloadOptions) (c : Artist)
    (h : c ∈ selectDiscoveryCandidates similar visited opts) :
    c ∈ discoveryFilter similar visited opts :=
  (select_perm_filter similar visited opts).mem_iff.mp h

theorem select_not_visited (similar : List Artist) (visited : List String)
    (opts : DownloadOptions) (c : Artist)
    (h : c ∈ selectDiscoveryCandidates similar visited opts) : c.id ∉ visited := by
  have hf := mem_select_filter similar visited opts c h
  simp only [discoveryFilter, List.mem_filter, Bool.and_eq_true, Bool.not_eq_true',
    Bool.or_eq_false_iff] at hf
  intro hv
  have hc := hf.2.1.1
  rw [List.contains_eq_any_beq] at hc
  simp [List.any_eq_true] at hc
  exact hc c.id hv rfl

theorem select_nodup_ids (similar : List Artist) (visited : List String)
    (opts : DownloadOptions) (hnd : (similar.map Artist.id).Nodup) :
    ((selectDiscoveryCandidates similar visited opts).map Artist.id).Nodup := by
  have hperm := (select_perm_filter similar visited opts).map Artist.id
  have hsub : ((discoveryFilter similar visited opts).map Artist.id).Sublist
      (similar.map Artist.id) := (List.filter_sublist similar).map Artist.id
  exact hperm.nodup_iff.mpr (hnd.sublist hsub)

theorem stepPost_refl (opts : DownloadOptions) (seedId : String) (d : Nat)
    (st : DiscState) (nl : List String) (HInv : LoopInv seedId st) :
    StepPost opts seedId d st nl (st, nl) :=
  ⟨fun _ _ h => h, fun _ hx => hx, HInv, fun h => h, fun _ _ h => Or.inl h,
    fun _ _ hpre => hpre, fun h => h, fun h => h⟩

theorem stepPost_comp (opts : DownloadOptions) (seedId : String) (d : Nat)
    (st : DiscState) (nl : List String) (mid fin : DiscState × List String)
    (h₁ : StepPost opts seedId d st nl mid)
    (h₂ : StepPost opts seedId d mid.1 mid.2 fin) :
    StepPost opts seedId d st nl fin := by
  obtain ⟨a1, a2, a3, a4, a5, a6, a7, a8⟩ := h₁
  obtain ⟨b1, b2, b3, b4, b5, b6, b7, b8⟩ := h₂
  refine ⟨fun k a h => b1 k a (a1 k a h), fun x hx => b2 x (a2 x hx), b3,
    fun h => b4 (a4 h), ?_, ?_, fun h => b7 (a7 h), fun h => b8 (a8 h)⟩
  · intro k a h
    rcases b5 k a h with h' | h'
    · exact a5 k a h'
    · exact Or.inr (fun hk => h' (a2 k hk))
  · intro D hD hpre
    exact b6 D hD (a6 D hD hpre)

theorem processParent_invariant (svc : MusicService) (opts : DownloadOptions)
    (seedId : String) (d : Nat) (st : DiscState) (nl : List String) (parentId : String)
    (hwf : svc.WF) (HInv : LoopInv seedId st)
    (Hpar : ∀ pa, lookupAssoc st.discovered parentId = some pa → pa.depth + 1 = d) :
    StepPost opts seedId d st nl (processParent svc opts d st nl parentId) := by
  unfold processParent
  cases hlook : lookupAssoc st.discovered parentId with
  | none => exact stepPost_refl opts seedId d st nl HInv
  | some pa =>
    have hb := admitLoop_invariant svc opts seedId parentId d
      (if opts.enable_year_filtering_for_discovery then opts.max_similar_artist_attempts
        else opts.similar_limit)
      (selectDiscoveryCandidates (svc.get_similar_artists parentId 50) st.visited opts)
      st nl [] 0
      (fun c hc => select_not_visited _ _ _ c hc)
      (select_nodup_ids _ _ _ (hwf.2 parentId 50))
      HInv ⟨pa, hlook, Hpar pa hlook⟩
    obtain ⟨p1, p2, p3, p4, p5, p6, p7, p8, p9⟩ := hb
    refine ⟨p1, p2, ?_, ?_, p5, p6, p7, p8⟩
    · exact ⟨p3.1, p3.2.1, p3.2.2.1, p3.2.2.2⟩
    · intro hT pr hpr
      simp only at hpr
      rw [p4] at hpr
      rcases mem_updateAssoc st.tree parentId _ pr hpr with h' | h'
      · exact hT pr h'
      · subst h'
        exact p9 (Nat.zero_le _)

theorem processLevel_invariant (svc : MusicService) (opts : DownloadOptions)
    (seedId : String) (d : Nat) (parents : List String) :
    ∀ (st : DiscState) (nl : List String),
    svc.WF → LoopInv seedId st →
    (∀ p ∈ parents, ∀ pa, lookupAssoc st.discovered p = some pa → pa.depth + 1 = d) →
    (∀ p ∈ parents, p ∈ st.visited) →
    StepPost opts seedId d st nl (processLevel svc opts d parents st nl) := by
  induction parents with
  | nil =>
    intro st nl _ HInv _ _
    exact stepPost_refl opts seedId d st nl HInv
  | cons p ps ih =>
    intro st nl hwf HInv HparAll HparVis
    unfold processLevel
    by_cases h1 : opts.max_total_artists ≤ st.discovered.length
    · simp only [h1, if_true]
      exact stepPost_refl opts seedId d st nl HInv
    · simp only [h1, if_false]
      have hp := processParent_invariant svc opts seedId d st nl p hwf HInv
        (HparAll p (List.mem_cons_self _ _))
      have hIH := ih (processParent svc opts d st nl p).1
        (processParent svc opts d st nl p).2 hwf hp.2.2.1 ?_ ?_
      · exact stepPost_comp opts seedId d st nl _ _ hp hIH
      · intro q hq pa hpa
        rcases hp.2.2.2.2.1 q pa hpa with h' | h'
        · exact HparAll q (List.mem_cons_of_mem _ hq) pa h'
        · exact absurd (HparVis q (List.mem_cons_of_mem _ hq)) h'
      · intro q hq
        exact hp.2.1 q (HparVis q (List.mem_cons_of_mem _ hq))

theorem runLevels_invariant (svc : MusicService) (opts : DownloadOptions)
    (seedId : String) (fuel : Nat) :
    ∀ (d : Nat) (cur : List String) (st : DiscState),
    svc.WF → LoopInv seedId st →
    (∀ p ∈ cur, ∀ pa, lookupAssoc st.discovered p = some pa → pa.depth + 1 = d) →
    (∀ p ∈ cur, p ∈ st.visited) →
    (∀ k a, lookupAssoc st.discovered k = some a →
        lookupAssoc (runLevels svc opts fuel d cur st).discovered k = some a) ∧
    LoopInv seedId (runLevels svc opts fuel d cur st) ∧
    ((∀ pr ∈ st.tree, pr.2.length ≤ opts.similar_limit) →
        ∀ pr ∈ (runLevels svc opts fuel d cur st).tree, pr.2.length ≤ opts.similar_limit) ∧
    (∀ D, d + fuel ≤ D + 1 →
        (∀ k a, lookupAssoc st.discovered k = some a → a.depth ≤ D) →
        ∀ k a, lookupAssoc (runLevels svc opts fuel d cur st).discovered k = some a →
          a.depth ≤ D) ∧
    (st.discovered.length ≤ opts.max_total_artists →
        (runLevels svc opts fuel d cur st).discovered.length ≤ opts.max_total_artists) := by
  induction fuel with
  | zero =>
    intro d cur st _ HInv _ _
    exact ⟨fun _ _ h => h, HInv, fun h => h, fun _ _ hpre => hpre, fun h => h⟩
  | succ fuel ih =>
    intro d cur st hwf HInv HparAll HparVis
    unfold runLevels
    by_cases h1 : opts.max_total_artists ≤ st.discovered.length
    · simp only [h1, if_true]
      exact ⟨fun _ _ h => h, HInv, fun h => h, fun _ _ hpre => hpre, fun h => h⟩
    · simp only [h1, if_false]
      by_cases h2 : cur = []
      · simp only [h2, if_true]
        exact ⟨fun _ _ h => h, HInv, fun h => h, fun _ _ hpre => hpre, fun h => h⟩
      · simp only [h2, if_false]
        have hL := processLevel_invariant svc opts seedId d cur st [] hwf HInv HparAll HparVis
        obtain ⟨a1, a2, a3, a4, a5, a6, a7, a8⟩ := hL
        have hnext : ∀ x ∈ (processLevel svc opts d cur st []).2,
            ∃ a, lookupAssoc (processLevel svc opts d cur st []).1.discovered x = some a ∧
              a.depth = d := a7 (by intro x hx; simp at hx)
        have hIH := ih (d + 1) (processLevel svc opts d cur st []).2
          (processLevel svc opts d cur st []).1 hwf a3 ?_ ?_
        · obtain ⟨b1, b2, b3, b4, b5⟩ := hIH
          refine ⟨fun k a h => b1 k a (a1 k a h), b2, fun h => b3 (a4 h), ?_,
            fun h => b5 (a8 h)⟩
          intro D hD hpre
          refine b4 D (by omega) ?_
          exact a6 D (by omega) hpre
        · intro p hp pa hpa
          obtain ⟨a', ha', hd'⟩ := hnext p hp
          rw [ha'] at hpa
          cases hpa
          omega
        · intro p hp
          obtain ⟨a', ha', _⟩ := hnext p hp
          exact a3.2.1 p (by simp [ha'])

theorem initState_loopInv (seedId : String) (base : Artist) (hid : base.id = seedId) :
    LoopInv seedId (initState seedId base) := by
  refine ⟨?_, ?_, ?_, ?_⟩
  · simp [initState]
  · intro k hk
    simp only [initState, lookupAssoc] at hk
    by_cases h : seedId = k
    · simp [initState, h.symm]
    · simp [h] at hk
  · simp [initState]
  · intro k a hk
    simp only [initState, lookupAssoc] at hk
    by_cases h : seedId = k
    · rw [if_pos h] at hk
      cases hk
      exact ⟨h ▸ hid, fun hne => absurd h.symm hne⟩
    · rw [if_neg h] at hk
      exact absurd hk (by simp [lookupAssoc])

/-- The catalog `svcSmall` is well-formed. -/
theorem svcSmall_wf : svcSmall.WF := by
  constructor
  · intro id a h
    simp only [svcSmall] at h
    by_cases h1 : id = "1"
    · subst h1
      simp at h
      subst h
      exact ⟨rfl, rfl, rfl⟩
    · simp [h1] at h
  · intro id limit
    simp only [svcSmall]
    by_cases h1 : id = "1"
    · subst h1
      simp
    · by_cases h2 : id = "2"
      · subst h2
        simp [h1]
      · simp [h1, h2]

/-- Inversion of a successful `discover_recursive` run. -/
theorem discoverRecursive_ok_inv (svc : MusicService) (opts : DownloadOptions)
    (seedId : String) (r : DiscoveryResult)
    (h : discoverRecursive svc opts seedId = .ok r) :
    ∃ base, svc.get_artist seedId = some base ∧
      r = { base_artist := base,
            discovered_artists :=
              (runLevels svc opts opts.max_depth 1 [seedId]
                (initState seedId base)).discovered.map Prod.snd,
            discovery_tree :=
              (runLevels svc opts opts.max_depth 1 [seedId] (initState seedId base)).tree,
            total_discovered :=
              (runLevels svc opts opts.max_depth 1 [seedId]
                (initState seedId base)).discovered.length,
            max_depth_reached :=
              maxDepthOf (runLevels svc opts opts.max_depth 1 [seedId]
                (initState seedId base)).discovered,
            countries_found :=
              (runLevels svc opts opts.max_depth 1 [seedId]
                (initState seedId base)).countries } := by
  unfold discoverRecursive discoverRecursiveBody at h
  cases hga : svc.get_artist seedId with
  | none =>
    rw [hga] at h
    simp at h
  | some base =>
    rw [hga] at h
    simp only at h
    cases h
    exact ⟨base, rfl, rfl⟩

/-- C4 confirmed (for a well-formed catalog and a positive total-artist cap
— the seed itself always counts toward the total): in every successful
recursive discovery, every parent has at most `similar_limit` children in
the discovery tree, every discovered entity has depth at most `max_depth`,
and the total number of discovered entities, seed included, is at most
`max_total_artists`. -/
theorem claim4_bounds (svc : MusicService) (opts : DownloadOptions) (seedId : String)
    (r : DiscoveryResult) (hwf : svc.WF) (hM : 1 ≤ opts.max_total_artists)
    (h : discoverRecursive svc opts seedId = .ok r) :
    (∀ pr ∈ r.discovery_tree, pr.2.length ≤ opts.similar_limit) ∧
    (∀ a ∈ r.discovered_artists, a.depth ≤ opts.max_depth) ∧
    r.discovered_artists.length ≤ opts.max_total_artists := by
  obtain ⟨base, hga, hr⟩ := discoverRecursive_ok_inv svc opts seedId r h
  obtain ⟨hid, hdep0, _⟩ := hwf.1 seedId base hga
  have HInv0 := initState_loopInv seedId base hid
  have Hpar0 : ∀ p ∈ [seedId], ∀ pa,
      lookupAssoc (initState seedId base).discovered p = some pa → pa.depth + 1 = 1 := by
    intro p hp pa hpa
    simp only [List.mem_singleton] at hp
    subst hp
    simp only [initState, lookupAssoc, if_pos rfl] at hpa
    cases hpa
    omega
  have Hvis0 : ∀ p ∈ [seedId], p ∈ (initState seedId base).visited := by
    simp [initState]
  obtain ⟨r1, r2, r3, r4, r5⟩ := runLevels_invariant svc opts seedId opts.max_depth 1
    [seedId] (initState seedId base) hwf HInv0 Hpar0 Hvis0
  subst hr
  refine ⟨?_, ?_, ?_⟩
  · refine r3 ?_
    intro pr hpr
    simp only [initState, List.mem_singleton] at hpr
    subst hpr
    simp
  · intro a ha
    obtain ⟨p, hmem, hp⟩ := List.mem_map.mp ha
    have hlk : lookupAssoc (runLevels svc opts opts.max_depth 1 [seedId]
        (initState seedId base)).discovered p.1 = some p.2 :=
      lookupAssoc_of_mem_nodup _ _ _ r2.1 (by simpa using hmem)
    have := r4 opts.max_depth (by omega) ?_ p.1 p.2 hlk
    · rw [hp] at this
      exact this
    · intro k a' hk
      simp only [initState, lookupAssoc] at hk
      by_cases hks : seedId = k
      · rw [if_pos hks] at hk
        cases hk
        omega
      · rw [if_neg hks] at hk
        exact absurd hk (by simp [lookupAssoc])
  · rw [List.length_map]
    refine r5 ?_
    simpa [initState] using hM

/-- Witness for C4 on the small concrete catalog. -/
theorem claim4_witness :
    (∀ pr ∈ smallResult.discovery_tree, pr.2.length ≤ optsSmall.similar_limit) ∧
    (∀ a ∈ smallResult.discovered_artists, a.depth ≤ optsSmall.max_depth) ∧
    smallResult.discovered_artists.length ≤ optsSmall.max_total_artists :=
  claim4_bounds svcSmall optsSmall "1" smallResult svcSmall_wf (by decide) rfl

/-- C5 confirmed (for a well-formed catalog): in every successful recursive
discovery, (i) every discovered entity other than the seed carries a
`discovered_from` pointing at a discovered parent whose depth is one less,
and (ii) from any traversal configuration satisfying the run invariant, the
remainder of the run preserves every present entry exactly — depth and
discovered_from are set at first discovery and never change afterwards,
even if the entity is reachable again later. -/
theorem claim5_no_reparenting (svc : MusicService) (opts : DownloadOptions)
    (seedId : String) (r : DiscoveryResult) (hwf : svc.WF)
    (h : discoverRecursive svc opts seedId = .ok r) :
    (∀ a ∈ r.discovered_artists, a.id ≠ seedId →
      ∃ pid pa, a.discovered_from = some pid ∧ pa ∈ r.discovered_artists ∧
        pa.id = pid ∧ a.depth = pa.depth + 1) ∧
    (∀ fuel d cur st k a, LoopInv seedId st →
      (∀ p ∈ cur, ∀ pa, lookupAssoc st.discovered p = some pa → pa.depth + 1 = d) →
      (∀ p ∈ cur, p ∈ st.visited) →
      lookupAssoc st.discovered k = some a →
      lookupAssoc (runLevels svc opts fuel d cur st).discovered k = some a) := by
  obtain ⟨base, hga, hr⟩ := discoverRecursive_ok_inv svc opts seedId r h
  obtain ⟨hid, hdep0, _⟩ := hwf.1 seedId base hga
  have HInv0 := initState_loopInv seedId base hid
  have Hpar0 : ∀ p ∈ [seedId], ∀ pa,
      lookupAssoc (initState seedId base).discovered p = some pa → pa.depth + 1 = 1 := by
    intro p hp pa hpa
    simp only [List.mem_singleton] at hp
    subst hp
    simp only [initState, lookupAssoc, if_pos rfl] at hpa
    cases hpa
    omega
  have Hvis0 : ∀ p ∈ [seedId], p ∈ (initState seedId base).visited := by
    simp [initState]
  obtain ⟨r1, r2, r3, r4, r5⟩ := runLevels_invariant svc opts seedId opts.max_depth 1
    [seedId] (initState seedId base) hwf HInv0 Hpar0 Hvis0
  constructor
  · subst hr
    intro a ha hne
    obtain ⟨p, hmem, hp⟩ := List.mem_map.mp ha
    have hlk : lookupAssoc (runLevels svc opts opts.max_depth 1 [seedId]
        (initState seedId base)).discovered p.1 = some p.2 :=
      lookupAssoc_of_mem_nodup _ _ _ r2.1 (by simpa using hmem)
    obtain ⟨hidk, hlink⟩ := r2.2.2.2 p.1 p.2 hlk
    have hkne : p.1 ≠ seedId := by
      rw [hp] at hidk
      exact hidk ▸ hne
    obtain ⟨pid, pa, hfrom, hplook, hdep⟩ := hlink hkne
    refine ⟨pid, pa, hp ▸ hfrom, ?_, ?_, hp ▸ hdep⟩
    · exact List.mem_map.mpr ⟨(pid, pa), lookupAssoc_mem _ _ _ hplook, rfl⟩
    · exact (r2.2.2.2 pid pa hplook).1
  · intro fuel d cur st k a hinv hpar hvis hlook
    exact (runLevels_invariant svc opts seedId fuel d cur st hwf hinv hpar hvis).1 k a hlook

/-- Witness for C5 on the small concrete catalog: the parent-link property
at the computed result, and exact preservation of the seed entry across
the whole run. -/
theorem claim5_witness :
    (∀ a ∈ smallResult.discovered_artists, a.id ≠ "1" →
      ∃ pid pa, a.discovered_from = some pid ∧ pa ∈ smallResult.discovered_artists ∧
        pa.id = pid ∧ a.depth = pa.depth + 1) ∧
    lookupAssoc (runLevels svcSmall optsSmall 2 1 ["1"]
        (initState "1" { id := "1", name := "One" })).discovered "1" =
      some { id := "1", name := "One" } := by
  have hmain := claim5_no_reparenting svcSmall optsSmall "1" smallResult svcSmall_wf rfl
  refine ⟨hmain.1, ?_⟩
  refine hmain.2 2 1 ["1"] (initState "1" { id := "1", name := "One" }) "1"
    { id := "1", name := "One" } (initState_loopInv "1" _ rfl) ?_ ?_ ?_
  · intro p hp pa hpa
    simp only [List.mem_singleton] at hp
    subst hp
    simp only [initState, lookupAssoc, if_pos rfl] at hpa
    cases hpa
    rfl
  · simp [initState]
  · simp [initState, lookupAssoc]

/-! ### Claim C8 — command-signature compatibility -/

theorem digitCh_ne : ∀ d < 10, digitCh d ≠ '_' ∧ digitCh d ≠ ',' := by decide

theorem digitCh_inj : ∀ a < 10, ∀ b < 10, digitCh a = digitCh b → a = b := by decide

theorem decDigitsCore_eq (fuel : Nat) : ∀ n ds, n < fuel →
    decDigitsCore fuel n ds = decDigits n ++ ds := by
  induction fuel with
  | zero =>
    intro n ds h
    omega
  | succ fuel ih =>
    intro n ds h
    simp only [decDigitsCore]
    by_cases h10 : n / 10 = 0
    · have hn : n < 10 := (Nat.div_eq_zero_iff (by omega)).mp h10
      rw [if_pos h10, decDigits, dif_pos hn, Nat.mod_eq_of_lt hn]
      rfl
    · have hn : ¬ n < 10 := fun hlt => h10 (Nat.div_eq_of_lt hlt)
      have hlt : n / 10 < fuel :=
        Nat.lt_of_lt_of_le (Nat.div_lt_self (by omega) (by omega)) (by omega)
      rw [if_neg h10, ih (n / 10) _ hlt]
      conv_rhs => rw [decDigits]
      rw [dif_neg hn]
      simp

theorem decStr_data (n : Nat) : (decStr n).data = decDigits n := by
  show decDigitsCore (n + 1) n [] = decDigits n
  rw [decDigitsCore_eq (n + 1) n [] (by omega)]
  simp

theorem decDigits_chars (n : Nat) : ∀ c ∈ decDigits n, c ≠ '_' ∧ c ≠ ',' := by
  induction n using Nat.strong_induction_on with
  | _ n ih =>
    rw [decDigits]
    by_cases h : n < 10
    · rw [dif_pos h]
      intro c hc
      simp only [List.mem_singleton] at hc
      subst hc
      exact digitCh_ne n h
    · rw [dif_neg h]
      intro c hc
      rcases List.mem_append.mp hc with h' | h'
      · exact ih (n / 10) (Nat.div_lt_self (by omega) (by omega)) c h'
      · simp only [List.mem_singleton] at h'
        subst h'
        exact digitCh_ne (n % 10) (Nat.mod_lt _ (by omega))

theorem decDigits_ne_nil (n : Nat) : decDigits n ≠ [] := by
  rw [decDigits]
  by_cases h : n < 10
  · simp [h]
  · rw [dif_neg h]
    simp

theorem decDigits_inj : ∀ m n, decDigits m = decDigits n → m = n := by
  intro m
  induction m using Nat.strong_induction_on with
  | _ m ih =>
    intro n h
    by_cases hm : m < 10 <;> by_cases hn : n < 10
    · rw [decDigits, dif_pos hm] at h
      rw [decDigits, dif_pos hn] at h
      simp only [List.cons.injEq, and_true] at h
      exact digitCh_inj m hm n hn h
    · rw [decDigits, dif_pos hm] at h
      rw [decDigits, dif_neg hn] at h
      have hlen := congrArg List.length h
      simp only [List.length_singleton, List.length_append] at hlen
      have hnil : (decDigits (n / 10)).length = 0 := by omega
      exact absurd (List.length_eq_zero.mp hnil) (decDigits_ne_nil _)
    · rw [decDigits, dif_neg hm] at h
      replace h := h.symm
      rw [decDigits, dif_pos hn] at h
      have hlen := congrArg List.length h
      simp only [List.length_singleton, List.length_append] at hlen
      have hnil : (decDigits (m / 10)).length = 0 := by omega
      exact absurd (List.length_eq_zero.mp hnil) (decDigits_ne_nil _)
    · rw [decDigits, dif_neg hm] at h
      replace h := h.symm
      rw [decDigits, dif_neg hn] at h
      replace h := h.symm
      obtain ⟨h₁, h₂⟩ := List.append_inj' h (by simp)
      have hdiv : m / 10 = n / 10 :=
        ih (m / 10) (Nat.div_lt_self (by omega) (by omega)) (n / 10) h₁
      have hmod : m % 10 = n % 10 := by
        simp only [List.cons.injEq, and_true] at h₂
        exact digitCh_inj (m % 10) (Nat.mod_lt _ (by omega)) (n % 10)
          (Nat.mod_lt _ (by omega)) h₂
      have hm10 := Nat.div_add_mod m 10
      have hn10 := Nat.div_add_mod n 10
      omega

theorem sep_peel (sep : Char) : ∀ (a₁ a₂ r₁ r₂ : List Char),
    (∀ c ∈ a₁, c ≠ sep) → (∀ c ∈ a₂, c ≠ sep) →
    a₁ ++ sep :: r₁ = a₂ ++ sep :: r₂ → a₁ = a₂ ∧ r₁ = r₂ := by
  intro a₁
  induction a₁ with
  | nil =>
    intro a₂ r₁ r₂ _ h₂ h
    cases a₂ with
    | nil => simpa using h
    | cons c cs =>
      simp only [List.nil_append, List.cons_append, List.cons.injEq] at h
      exact absurd h.1.symm (h₂ c (List.mem_cons_self _ _))
  | cons c cs ih =>
    intro a₂ r₁ r₂ h₁ h₂ h
    cases a₂ with
    | nil =>
      simp only [List.nil_append, List.cons_append, List.cons.injEq] at h
      exact absurd h.1 (h₁ c (List.mem_cons_self _ _))
    | cons c₂ cs₂ =>
      simp only [List.cons_append, List.cons.injEq] at h
      obtain ⟨hc, hrest⟩ := h
      obtain ⟨he, hr⟩ := ih cs₂ r₁ r₂ (fun x hx => h₁ x (List.mem_cons_of_mem _ hx))
        (fun x hx => h₂ x (List.mem_cons_of_mem _ hx)) hrest
      exact ⟨by rw [hc, he], hr⟩

theorem mem_joinComma_data : ∀ (l : List String) (c : Char), c ∈ (joinComma l).data →
    (∃ s ∈ l, c ∈ s.data) ∨ c = ',' := by
  intro l
  induction l with
  | nil =>
    intro c hc
    simp [joinComma] at hc
  | cons s rest ih =>
    cases rest with
    | nil =>
      intro c hc
      exact Or.inl ⟨s, List.mem_cons_self _ _, by simpa [joinComma] using hc⟩
    | cons s₂ t =>
      intro c hc
      simp only [joinComma] at hc
      rw [String.data_append, String.data_append] at hc
      rcases List.mem_append.mp hc with h | h
      · rcases List.mem_append.mp h with h' | h'
        · exact Or.inl ⟨s, List.mem_cons_self _ _, h'⟩
        · right
          simpa using h'
      · rcases ih c h with ⟨s', hs', hc'⟩ | h''
        · exact Or.inl ⟨s', List.mem_cons_of_mem _ hs', hc'⟩
        · exact Or.inr h''

theorem joinComma_inj : ∀ (l₁ l₂ : List String),
    (∀ s ∈ l₁, s ≠ "" ∧ ∀ c ∈ s.data, c ≠ ',') →
    (∀ s ∈ l₂, s ≠ "" ∧ ∀ c ∈ s.data, c ≠ ',') →
    joinComma l₁ = joinComma l₂ → l₁ = l₂ := by
  intro l₁
  induction l₁ with
  | nil =>
    intro l₂ _ h₂ h
    cases l₂ with
    | nil => rfl
    | cons s t =>
      cases t with
      | nil =>
        have hs : s = "" := h.symm
        exact absurd hs (h₂ s (List.mem_cons_self _ _)).1
      | cons s₂ t₂ =>
        have hd := congrArg String.data h
        simp only [joinComma] at hd
        rw [String.data_append, String.data_append] at hd
        have hmem : (',' : Char) ∈ ([] : List Char) := by
          rw [hd]
          exact List.mem_append_left _ (List.mem_append_right _ (by decide))
        simp at hmem
  | cons s₁ t₁ ih =>
    intro l₂ h₁ h₂ h
    cases l₂ with
    | nil =>
      cases t₁ with
      | nil =>
        have hs : s₁ = "" := h
        exact absurd hs (h₁ s₁ (List.mem_cons_self _ _)).1
      | cons s₃ t₃ =>
        have hd := congrArg String.data h
        simp only [joinComma] at hd
        rw [String.data_append, String.data_append] at hd
        have hmem : (',' : Char) ∈ ([] : List Char) := by
          rw [← hd]
          exact List.mem_append_left _ (List.mem_append_right _ (by decide))
        simp at hmem
    | cons s₂ t₂ =>
      cases t₁ with
      | nil =>
        cases t₂ with
        | nil =>
          have hs : s₁ = s₂ := h
          rw [hs]
        | cons s₄ t₄ =>
          have hd := congrArg String.data h
          simp only [joinComma] at hd
          rw [String.data_append, String.data_append] at hd
          have hmem : (',' : Char) ∈ s₁.data := by
            rw [hd]
            exact List.mem_append_left _ (List.mem_append_right _ (by decide))
          exact absurd rfl ((h₁ s₁ (List.mem_cons_self _ _)).2 ',' hmem)
      | cons s₃ t₃ =>
        cases t₂ with
        | nil =>
          have hd := congrArg String.data h
          simp only [joinComma] at hd
          rw [String.data_append, String.data_append] at hd
          have hmem : (',' : Char) ∈ s₂.data := by
            rw [← hd]
            exact List.mem_append_left _ (List.mem_append_right _ (by decide))
          exact absurd rfl ((h₂ s₂ (List.mem_cons_self _ _)).2 ',' hmem)
        | cons s₄ t₄ =>
          have hd := congrArg String.data h
          simp only [joinComma] at hd
          rw [String.data_append, String.data_append,
            String.data_append, String.data_append] at hd
          rw [show ("," : String).data = [','] from rfl] at hd
          rw [List.append_assoc, List.append_assoc] at hd
          simp only [List.singleton_append] at hd
          obtain ⟨hs, hJ⟩ := sep_peel ',' s₁.data s₂.data _ _
            (fun c hc => (h₁ s₁ (List.mem_cons_self _ _)).2 c hc)
            (fun c hc => (h₂ s₂ (List.mem_cons_self _ _)).2 c hc) hd
          have hse : s₁ = s₂ := String.ext hs
          have hje : joinComma (s₃ :: t₃) = joinComma (s₄ :: t₄) := String.ext hJ
          have hte := ih (s₄ :: t₄) (fun x hx => h₁ x (List.mem_cons_of_mem _ hx))
            (fun x hx => h₂ x (List.mem_cons_of_mem _ hx)) hje
          rw [hse, hte]

/-- Injectivity of the command-signature content string for seed ids that
are nonempty and free of `','` and `'_'` (the CLI's ids are decimal digit
strings). -/
theorem commandHash_inj (ids₁ ids₂ : List String) (s₁ s₂ d₁ d₂ n₁ n₂ : Nat)
    (h₁ : ∀ id ∈ ids₁, id ≠ "" ∧ ∀ c ∈ id.data, c ≠ ',' ∧ c ≠ '_')
    (h₂ : ∀ id ∈ ids₂, id ≠ "" ∧ ∀ c ∈ id.data, c ≠ ',' ∧ c ≠ '_')
    (h : generateCommandHash ids₁ s₁ d₁ n₁ = generateCommandHash ids₂ s₂ d₂ n₂) :
    sortStrings ids₁ = sortStrings ids₂ ∧ s₁ = s₂ ∧ d₁ = d₂ ∧ n₁ = n₂ := by
  have hsort₁ : ∀ id ∈ sortStrings ids₁, id ≠ "" ∧ ∀ c ∈ id.data, c ≠ ',' ∧ c ≠ '_' :=
    fun id hid => h₁ id ((List.perm_insertionSort _ ids₁).mem_iff.mp hid)
  have hsort₂ : ∀ id ∈ sortStrings ids₂, id ≠ "" ∧ ∀ c ∈ id.data, c ≠ ',' ∧ c ≠ '_' :=
    fun id hid => h₂ id ((List.perm_insertionSort _ ids₂).mem_iff.mp hid)
  have hJ₁ : ∀ c ∈ (joinComma (sortStrings ids₁)).data, c ≠ '_' := by
    intro c hc
    rcases mem_joinComma_data _ c hc with ⟨s, hs, hcs⟩ | hc'
    · exact ((hsort₁ s hs).2 c hcs).2
    · subst hc'
      decide
  have hJ₂ : ∀ c ∈ (joinComma (sortStrings ids₂)).data, c ≠ '_' := by
    intro c hc
    rcases mem_joinComma_data _ c hc with ⟨s, hs, hcs⟩ | hc'
    · exact ((hsort₂ s hs).2 c hcs).2
    · subst hc'
      decide
  have hS₁ : ∀ c ∈ (decStr s₁).data, c ≠ '_' := by
    intro c hc
    rw [decStr_data] at hc
    exact (decDigits_chars s₁ c hc).1
  have hS₂ : ∀ c ∈ (decStr s₂).data, c ≠ '_' := by
    intro c hc
    rw [decStr_data] at hc
    exact (decDigits_chars s₂ c hc).1
  have hD₁ : ∀ c ∈ (decStr d₁).data, c ≠ '_' := by
    intro c hc
    rw [decStr_data] at hc
    exact (decDigits_chars d₁ c hc).1
  have hD₂ : ∀ c ∈ (decStr d₂).data, c ≠ '_' := by
    intro c hc
    rw [decStr_data] at hc
    exact (decDigits_chars d₂ c hc).1
  have hd := congrArg String.data h
  unfold generateCommandHash at hd
  simp only [String.data_append] at hd
  simp only [List.append_assoc, List.singleton_append] at hd
  obtain ⟨hJ, hrest⟩ := sep_peel '_' _ _ _ _ hJ₁ hJ₂ hd
  obtain ⟨hS, hrest₂⟩ := sep_peel '_' _ _ _ _ hS₁ hS₂ hrest
  obtain ⟨hD, hN⟩ := sep_peel '_' _ _ _ _ hD₁ hD₂ hrest₂
  refine ⟨?_, ?_, ?_, ?_⟩
  · refine joinComma_inj _ _ ?_ ?_ (String.ext hJ)
    · exact fun s hs => ⟨(hsort₁ s hs).1, fun c hc => ((hsort₁ s hs).2 c hc).1⟩
    · exact fun s hs => ⟨(hsort₂ s hs).1, fun c hc => ((hsort₂ s hs).2 c hc).1⟩
  · refine decDigits_inj s₁ s₂ ?_
    rw [← decStr_data, ← decStr_data]
    exact hS
  · refine decDigits_inj d₁ d₂ ?_
    rw [← decStr_data, ← decStr_data]
    exact hD
  · refine decDigits_inj n₁ n₂ ?_
    rw [← decStr_data, ← decStr_data]
    exact hN

/-- C8 as stated is false: the content string hashed by
`generate_command_hash` joins the sorted seed ids with commas, so a seed id
that itself contains a comma collides with the two ids it resembles —
`["a,b"]` and `["a", "b"]` are different seed sets with identical
signatures, and `validate_compatibility` accepts the checkpoint although
the seed set differs.  (The md5 truncation is modelled as the identity on
the content string; real md5 only adds further collisions.) -/
theorem claim8_counterexample :
    (["a,b"] : List String).toFinset ≠ (["a", "b"] : List String).toFinset ∧
    generateCommandHash ["a,b"] 1 2 3 = generateCommandHash ["a", "b"] 1 2 3 ∧
    validateCompatibility
      { session_name := "s", command_hash := generateCommandHash ["a", "b"] 1 2 3 }
      (generateCommandHash ["a,b"] 1 2 3) = true := by
  refine ⟨by decide, by decide, by decide⟩

/-- C8 (amended): for seed ids that are nonempty and contain neither commas
nor underscores (the CLI passes decimal artist ids, and splits its input on
commas), the compatibility check returns false whenever the seed-id set,
the breadth, the depth or the items-per-entity differs from the values
hashed into the checkpoint's stored signature. -/
theorem claim8_amended (cp : ProgressCheckpoint) (ids₁ ids₂ : List String)
    (s₁ s₂ d₁ d₂ n₁ n₂ : Nat)
    (hids₁ : ∀ id ∈ ids₁, id ≠ "" ∧ ∀ c ∈ id.data, c ≠ ',' ∧ c ≠ '_')
    (hids₂ : ∀ id ∈ ids₂, id ≠ "" ∧ ∀ c ∈ id.data, c ≠ ',' ∧ c ≠ '_')
    (hcp : cp.command_hash = generateCommandHash ids₁ s₁ d₁ n₁)
    (hdiff : ids₁.toFinset ≠ ids₂.toFinset ∨ s₁ ≠ s₂ ∨ d₁ ≠ d₂ ∨ n₁ ≠ n₂) :
    validateCompatibility cp (generateCommandHash ids₂ s₂ d₂ n₂) = false := by
  have hne : generateCommandHash ids₁ s₁ d₁ n₁ ≠ generateCommandHash ids₂ s₂ d₂ n₂ := by
    intro he
    obtain ⟨hsorted, hs, hdd, hn⟩ := commandHash_inj ids₁ ids₂ s₁ s₂ d₁ d₂ n₁ n₂
      hids₁ hids₂ he
    rcases hdiff with hx | hx | hx | hx
    · apply hx
      ext a
      simp only [List.mem_toFinset]
      have q₁ := List.perm_insertionSort
        (fun a b : String => charsLe a.data b.data = true) ids₁
      have q₂ := List.perm_insertionSort
        (fun a b : String => charsLe a.data b.data = true) ids₂
      rw [← q₁.mem_iff, ← q₂.mem_iff]
      show a ∈ sortStrings ids₁ ↔ a ∈ sortStrings ids₂
      rw [hsorted]
    · exact hx hs
    · exact hx hdd
    · exact hx hn
  unfold validateCompatibility
  rw [hcp]
  simp [hne]

/-- Witness for C8 (amended): same single seed id, breadth 1 vs 2 — the
checkpoint is rejected. -/
theorem claim8_amended_witness :
    validateCompatibility
      { session_name := "s", command_hash := generateCommandHash ["5"] 1 1 1 }
      (generateCommandHash ["5"] 2 1 1) = false :=
  claim8_amended { session_name := "s", command_hash := generateCommandHash ["5"] 1 1 1 }
    ["5"] ["5"] 1 2 1 1 1 1 (by decide) (by decide) rfl
    (Or.inr (Or.inl (by decide)))

end YMusic
